import Mathlib

/-!
Shallow embedding of the vorbis_decoder repository (Rust) in Lean 4, together
with theorems checking the natural-language specification against the code.

Conventions of the embedding:
* The bitstream_io little-endian bit reader is modelled as a list of booleans,
  least significant bit of each byte first.  Reading n bits takes the first n
  booleans and assembles them with the first bit as the least significant one,
  which is exactly what BitReader with LittleEndian endianness does.
* Machine integers are modelled as Nat (unsigned) or Int (signed).  The one
  place where overflow is reachable, the u8 counter current_length in the
  ordered codebook path, models the debug-build overflow check explicitly
  (an overflow aborts the decode like any other panic).
* Fallible Rust code returning Result is modelled with the Res type below;
  panics (assert, unwrap, todo, index out of bounds, integer division by
  zero, arithmetic overflow) are the .panicked outcome, and loops whose
  termination depends on data (while loops) carry explicit fuel whose
  exhaustion is the .diverged outcome.  Fuel amounts are chosen so that
  .diverged is only reachable where the Rust code really loops forever.
* The two f32 fields of a vector lookup table are kept as the raw 32-bit
  integers read from the stream; no claim inspects the float values.
-/

/-- Outcome of running a piece of fallible Rust code: a normal return,
an error return (the Err side of a Result), a panic, or divergence. -/
inductive Res (ε α : Type) where
  | ok : α → Res ε α
  | err : ε → Res ε α
  | panicked : Res ε α
  | diverged : Res ε α
deriving Repr

/-- True exactly on the .ok outcome. -/
def Res.isOkB : Res ε α → Bool
  | .ok _ => true
  | _ => false

/-- True exactly on the .err outcome. -/
def Res.isErrB : Res ε α → Bool
  | .err _ => true
  | _ => false

/-- True exactly on the .panicked outcome. -/
def Res.isPanicB : Res ε α → Bool
  | .panicked => true
  | _ => false

/-- The eight bits of one byte, least significant first, as the little-endian
bit reader of bitstream_io delivers them. -/
def bitsOfByte (b : Nat) : List Bool :=
  [b % 2 = 1, b / 2 % 2 = 1, b / 4 % 2 = 1, b / 8 % 2 = 1,
   b / 16 % 2 = 1, b / 32 % 2 = 1, b / 64 % 2 = 1, b / 128 % 2 = 1]

/-- A byte sequence as the bit stream the reader traverses. -/
def bitsOfBytes (bs : List Nat) : List Bool :=
  (bs.map bitsOfByte).flatten

/-- Value of a bit string, first bit least significant. -/
def natOfBits : List Bool → Nat
  | [] => 0
  | b :: rest => (if b then 1 else 0) + 2 * natOfBits rest

/-- reader.read(n): take n bits from the stream; none models the
UnexpectedEof io error of bitstream_io. -/
def readBits (n : Nat) (s : List Bool) : Option (Nat × List Bool) :=
  if n ≤ s.length then some (natOfBits (s.take n), s.drop n) else none

/-- reader.read_bit(). -/
def readBit (s : List Bool) : Option (Bool × List Bool) :=
  match s with
  | [] => none
  | b :: rest => some (b, rest)

/-- Bounded bit-length helper: ilogAux fuel x is the bit length of x as long
as x < 2 ^ fuel. -/
def ilogAux : Nat → Nat → Nat
  | 0, _ => 0
  | fuel + 1, x => if x = 0 then 0 else ilogAux fuel (x / 2) + 1

/-- util::ilog for u32: 32 - x.leading_zeros(), the number of bits needed to
represent x (0 for 0).  Every argument in the repository is below 2^32. -/
def ilog (x : Nat) : Nat := ilogAux 32 x

/-- One fuelled run of the util::lookup1_values while loop: starting from
retval = r, keep incrementing while (r+1)^dimensions <= entries.  The u32
power (retval+1).pow(dimensions) is computed before the comparison, so a
power whose value reaches 2^32 is the debug-build overflow panic; .diverged
means the fuel ran out before the condition failed. -/
def lookup1Aux (entries dimensions : Nat) : Nat → Nat → Res Empty Nat
  | 0, _ => .diverged
  | fuel + 1, r =>
    if 2 ^ 32 ≤ (r + 1) ^ dimensions then .panicked
    else if (r + 1) ^ dimensions ≤ entries then
      lookup1Aux entries dimensions fuel (r + 1)
    else
      .ok r

theorem natOfBits_lt (l : List Bool) : natOfBits l < 2 ^ l.length := by
  induction l with
  | nil => simp [natOfBits]
  | cons b rest ih =>
    simp only [natOfBits, List.length_cons, pow_succ]
    cases b <;> simp <;> omega

theorem readBits_lt {n : Nat} {s : List Bool} {v : Nat} {s' : List Bool}
    (h : readBits n s = some (v, s')) : v < 2 ^ n := by
  unfold readBits at h
  split at h
  · rename_i hle
    have hlen : (s.take n).length = n := by
      simp [List.length_take]; omega
    have hlt := natOfBits_lt (s.take n)
    rw [hlen] at hlt
    injection h with h1
    injection h1 with h2 h3
    omega
  · exact absurd h (by simp)

theorem readBits_length {n : Nat} {s : List Bool} {v : Nat} {s' : List Bool}
    (h : readBits n s = some (v, s')) : s'.length = s.length - n := by
  unfold readBits at h
  split at h
  · injection h with h1
    injection h1 with h2 h3
    subst h3
    simp
  · exact absurd h (by simp)

theorem ilogAux_pos {fuel x : Nat} (hx : 1 ≤ x) (hf : 1 ≤ fuel) :
    1 ≤ ilogAux fuel x := by
  cases fuel with
  | zero => omega
  | succ f =>
    unfold ilogAux
    have : ¬ x = 0 := by omega
    simp [this]

theorem ilog_pos {x : Nat} (hx : 1 ≤ x) : 1 ≤ ilog x :=
  ilogAux_pos hx (by norm_num)

/-- huffman.rs HuffmanNode: left and right child (absent children are the
empty tree) and an optional symbol value; a node with a value is a leaf. -/
inductive HTree where
  | empty : HTree
  | node : HTree → HTree → Option Nat → HTree
deriving Repr, DecidableEq

/-- HuffmanNode::is_leaf: the node carries a value. -/
def HTree.isLeafB : HTree → Bool
  | .empty => false
  | .node _ _ v => v.isSome

/-- A fresh childless valueless node, as created by HuffmanNode::new /
default before descending into an absent child. -/
def HTree.fresh : HTree := .node .empty .empty none

/-- HuffmanNode::add_node.  Descends length levels; at depth length the
symbol is placed in the first free child slot, trying left before right;
a missing child on the way down is created first; an existing child is
entered only if it is not a leaf.  none is the false return (no room);
the Rust code performs no net mutation in that case. -/
def addNode : Nat → HTree → Nat → Option HTree
  | 1, .node l r v, x =>
    match l with
    | .empty => some (.node (.node .empty .empty (some x)) r v)
    | _ =>
      match r with
      | .empty => some (.node l (.node .empty .empty (some x)) v)
      | _ => none
  | len + 2, .node l r v, x =>
    let l' := match l with | .empty => HTree.fresh | t => t
    match (if l'.isLeafB then none else addNode (len + 1) l' x) with
    | some l2 => some (.node l2 r v)
    | none =>
      let r' := match r with | .empty => HTree.fresh | t => t
      match (if r'.isLeafB then none else addNode (len + 1) r' x) with
      | some r2 => some (.node l' r2 v)
      | none => none
  | _, _, _ => none

/-- The loop in Codebook::decode feeding every present (length, symbol)
pair to HuffmanTree::add_node in ascending symbol order; none models the
assert!(done) panic on a failed insertion. -/
def buildTree : List (Option Nat) → Nat → HTree → Option HTree
  | [], _, t => some t
  | none :: rest, i, t => buildTree rest (i + 1) t
  | some len :: rest, i, t =>
    match addNode len t i with
    | some t' => buildTree rest (i + 1) t'
    | none => none

/-- codebook.rs CodebookError (io::Error collapsed to one case). -/
inductive CodebookError where
  | invalidSyncPattern : Nat → Nat → Nat → CodebookError
  | tooManyEntries : Nat → CodebookError
  | invalidLookupType : Nat → CodebookError
  | ioError : CodebookError
deriving Repr, DecidableEq

/-- codebook.rs VectorLookupTable; the two f32 fields keep the raw 32-bit
integers fed to float32_unpack. -/
structure VectorLookupTable where
  minimum_value : Nat
  delta_value : Nat
  value_bits : Nat
  sequence_p : Bool
  lookup_values : Nat
  multiplicands : List Nat
deriving Repr, DecidableEq

/-- codebook.rs Codebook. -/
structure Codebook where
  dimensions : Nat
  entries : Nat
  ordered : Bool
  sparse : Option Bool
  codeword_lengths : List (Option Nat)
  lookup_type : Nat
  vector_lookup_table : Option VectorLookupTable
  huffman_tree : HTree
deriving Repr, DecidableEq

/-- The non-ordered entry loop of Codebook::decode: one 5-bit length (+1)
per entry, behind a 1-bit used flag when sparse. -/
def entryLoop (sparse : Bool) : Nat → List Bool → List (Option Nat) →
    Res CodebookError (List (Option Nat) × List Bool)
  | 0, s, acc => .ok (acc, s)
  | k + 1, s, acc =>
    if sparse then
      match readBit s with
      | none => .err .ioError
      | some (flag, s1) =>
        if flag then
          match readBits 5 s1 with
          | none => .err .ioError
          | some (v, s2) => entryLoop sparse k s2 (acc ++ [some (v + 1)])
        else
          entryLoop sparse k s1 (acc ++ [none])
    else
      match readBits 5 s with
      | none => .err .ioError
      | some (v, s2) => entryLoop sparse k s2 (acc ++ [some (v + 1)])

/-- The ordered run-length loop of Codebook::decode: while current_entry is
below entries, read ilog(entries - current_entry) bits as a count, assign
current_length to that many consecutive entries, and move to the next
length; afterwards overshooting entries is the TooManyEntries error.
current_length is a u8: incrementing it past 255 is the debug-build
overflow panic. -/
def orderedLoop (entries : Nat) : Nat → Nat → Nat → List Bool →
    List (Option Nat) → Res CodebookError (List (Option Nat) × List Bool)
  | 0, _, _, _, _ => .diverged
  | fuel + 1, ce, cl, s, acc =>
    if ce < entries then
      match readBits (ilog (entries - ce)) s with
      | none => .err .ioError
      | some (number, s1) =>
        if cl = 255 then .panicked
        else
          orderedLoop entries fuel (ce + number) (cl + 1) s1
            (acc ++ List.replicate number (some cl))
    else if entries < ce then .err (.tooManyEntries ce)
    else .ok (acc, s)

/-- The lookup-table section of Codebook::decode (lookup types 1 and 2)
starting right after the 4-bit lookup_type field, plus the multiplicand
reads.  lookup1_values is run with entries + 1 fuel, which suffices
whenever dimensions is at least 1; with dimensions = 0 and entries > 0 the
Rust loop never terminates, which is the .diverged outcome. -/
def multLoop : Nat → Nat → List Bool → List Nat →
    Res CodebookError (List Nat × List Bool)
  | 0, _, s, acc => .ok (acc, s)
  | k + 1, bits, s, acc =>
    match readBits bits s with
    | none => .err .ioError
    | some (v, s1) => multLoop k bits s1 (acc ++ [v])

/-- Vector lookup table decode for lookup types 1 and 2. -/
def lookupDecode (lookupType entries dimensions : Nat) (s : List Bool) :
    Res CodebookError (VectorLookupTable × List Bool) :=
  match readBits 32 s with
  | none => .err .ioError
  | some (minv, s1) =>
    match readBits 32 s1 with
    | none => .err .ioError
    | some (delv, s2) =>
      match readBits 4 s2 with
      | none => .err .ioError
      | some (vb, s3) =>
        match readBit s3 with
        | none => .err .ioError
        | some (seqp, s4) =>
          let valueBits := vb + 1
          match (if lookupType = 1 then
              lookup1Aux entries dimensions (entries + 1) 0
            else
              .ok (entries * dimensions) : Res Empty Nat) with
          | .err e => e.elim
          | .panicked => .panicked
          | .diverged => .diverged
          | .ok lookupValues =>
            match multLoop lookupValues valueBits s4 [] with
            | .ok (mults, s5) =>
              .ok ({ minimum_value := minv, delta_value := delv,
                     value_bits := valueBits, sequence_p := seqp,
                     lookup_values := lookupValues,
                     multiplicands := mults }, s5)
            | .err e => .err e
            | .panicked => .panicked
            | .diverged => .diverged

/-- The not-ordered branch of Codebook::decode: read the sparse flag, then
run the per-entry loop. -/
def notOrderedBranch (entries : Nat) (s : List Bool) :
    Res CodebookError ((Option Bool × List (Option Nat)) × List Bool) :=
  match readBit s with
  | none => .err .ioError
  | some (sp, s1) =>
    match entryLoop sp entries s1 [] with
    | .ok (ls, s2) => .ok ((some sp, ls), s2)
    | .err e => .err e
    | .panicked => .panicked
    | .diverged => .diverged

/-- The ordered branch of Codebook::decode: the initial codeword length is
read as a 1-bit field plus one, then the run-length loop runs.  The loop
consumes at least one bit per iteration, so length-of-stream + 1 fuel never
runs out. -/
def orderedBranch (entries : Nat) (s : List Bool) :
    Res CodebookError ((Option Bool × List (Option Nat)) × List Bool) :=
  match readBits 1 s with
  | none => .err .ioError
  | some (v, s1) =>
    match orderedLoop entries (s1.length + 1) 0 (v + 1) s1 [] with
    | .ok (ls, s2) => .ok ((none, ls), s2)
    | .err e => .err e
    | .panicked => .panicked
    | .diverged => .diverged

/-- The lookup_type dispatch of Codebook::decode: 0 means no table, 1 and 2
decode a table, anything else is the InvalidLookupType error. -/
def lookupSection (lookupType entries dimensions : Nat) (s : List Bool) :
    Res CodebookError (Option VectorLookupTable × List Bool) :=
  if lookupType = 0 then .ok (none, s)
  else if lookupType = 1 ∨ lookupType = 2 then
    match lookupDecode lookupType entries dimensions s with
    | .ok (t, s1) => .ok (some t, s1)
    | .err e => .err e
    | .panicked => .panicked
    | .diverged => .diverged
  else .err (.invalidLookupType lookupType)

/-- codebook.rs Codebook::decode. -/
def Codebook.decode (s : List Bool) : Res CodebookError (Codebook × List Bool) :=
  match readBits 8 s with
  | none => .err .ioError
  | some (p0, s1) =>
    match readBits 8 s1 with
    | none => .err .ioError
    | some (p1, s2) =>
      match readBits 8 s2 with
      | none => .err .ioError
      | some (p2, s3) =>
        if p0 = 0x42 ∧ p1 = 0x43 ∧ p2 = 0x56 then
          match readBits 16 s3 with
          | none => .err .ioError
          | some (dimensions, s4) =>
            match readBits 24 s4 with
            | none => .err .ioError
            | some (entries, s5) =>
              match readBit s5 with
              | none => .err .ioError
              | some (ordered, s6) =>
                match (if ordered = false then notOrderedBranch entries s6
                    else orderedBranch entries s6) with
                | .err e => .err e
                | .panicked => .panicked
                | .diverged => .diverged
                | .ok ((sparse, codewordLengths), s9) =>
                  match readBits 4 s9 with
                  | none => .err .ioError
                  | some (lookupType, s10) =>
                    match lookupSection lookupType entries dimensions s10 with
                    | .err e => .err e
                    | .panicked => .panicked
                    | .diverged => .diverged
                    | .ok (table, s12) =>
                      match buildTree codewordLengths 0 .fresh with
                      | none => .panicked
                      | some tree =>
                        .ok ({ dimensions := dimensions, entries := entries,
                               ordered := ordered, sparse := sparse,
                               codeword_lengths := codewordLengths,
                               lookup_type := lookupType,
                               vector_lookup_table := table,
                               huffman_tree := tree }, s12)
        else
          .err (.invalidSyncPattern p0 p1 p2)

/-- Modelled from the claim and specification text, not from the code: the
ordered branch with the initial codeword length read as a 5-bit field plus
one, as the Vorbis I specification prescribes.  Used only to compare the
claimed behaviour with the code, which reads 1 bit. -/
def orderedBranchSpec5 (entries : Nat) (s : List Bool) :
    Res CodebookError ((Option Bool × List (Option Nat)) × List Bool) :=
  match readBits 5 s with
  | none => .err .ioError
  | some (v, s1) =>
    match orderedLoop entries (s1.length + 1) 0 (v + 1) s1 [] with
    | .ok (ls, s2) => .ok ((none, ls), s2)
    | .err e => .err e
    | .panicked => .panicked
    | .diverged => .diverged

/-- Modelled from the claim and specification text, not from the code:
Codebook::decode with the 5-bit form of the initial ordered codeword
length.  Identical to Codebook.decode everywhere else. -/
def Codebook.decodeSpec5 (s : List Bool) : Res CodebookError (Codebook × List Bool) :=
  match readBits 8 s with
  | none => .err .ioError
  | some (p0, s1) =>
    match readBits 8 s1 with
    | none => .err .ioError
    | some (p1, s2) =>
      match readBits 8 s2 with
      | none => .err .ioError
      | some (p2, s3) =>
        if p0 = 0x42 ∧ p1 = 0x43 ∧ p2 = 0x56 then
          match readBits 16 s3 with
          | none => .err .ioError
          | some (dimensions, s4) =>
            match readBits 24 s4 with
            | none => .err .ioError
            | some (entries, s5) =>
              match readBit s5 with
              | none => .err .ioError
              | some (ordered, s6) =>
                match (if ordered = false then notOrderedBranch entries s6
                    else orderedBranchSpec5 entries s6) with
                | .err e => .err e
                | .panicked => .panicked
                | .diverged => .diverged
                | .ok ((sparse, codewordLengths), s9) =>
                  match readBits 4 s9 with
                  | none => .err .ioError
                  | some (lookupType, s10) =>
                    match lookupSection lookupType entries dimensions s10 with
                    | .err e => .err e
                    | .panicked => .panicked
                    | .diverged => .diverged
                    | .ok (table, s12) =>
                      match buildTree codewordLengths 0 .fresh with
                      | none => .panicked
                      | some tree =>
                        .ok ({ dimensions := dimensions, entries := entries,
                               ordered := ordered, sparse := sparse,
                               codeword_lengths := codewordLengths,
                               lookup_type := lookupType,
                               vector_lookup_table := table,
                               huffman_tree := tree }, s12)
        else
          .err (.invalidSyncPattern p0 p1 p2)

/-- floor.rs FloorError (io::Error collapsed to one case). -/
inductive FloorError where
  | invalidFloorType : Nat → FloorError
  | xListTooLong : Nat → FloorError
  | ioError : FloorError
deriving Repr, DecidableEq

/-- floor.rs Class (one Floor1 class record); subclass book bytes are
decoded as the byte minus one, so a raw zero becomes -1.  Named FloorClass
here because Lean already has a constant called Class. -/
structure FloorClass where
  dimensions : Nat
  subclasses : Nat
  masterbooks : Option Nat
  subclass_books : List Int
deriving Repr, DecidableEq

/-- floor.rs Floor0. -/
structure Floor0 where
  order : Nat
  rate : Nat
  bark_map_size : Nat
  amplitude_bits : Nat
  amplitude_offset : Nat
  number_of_books : Nat
  book_list : List Nat
deriving Repr, DecidableEq

/-- floor.rs Floor1. -/
structure Floor1 where
  partitions : Nat
  partition_class_list : List Nat
  maximum_class : Nat
  classes : List FloorClass
  multiplier : Nat
  rangebits : Nat
  x_list : List Nat
deriving Repr, DecidableEq

/-- floor.rs Floor. -/
inductive Floor where
  | zero : Floor0 → Floor
  | one : Floor1 → Floor
deriving Repr, DecidableEq

/-- The fixed-count read loops of the floor decoders: count reads of the
given width, collected in order. -/
def readLoop : Nat → Nat → List Bool → List Nat →
    Res FloorError (List Nat × List Bool)
  | 0, _, s, acc => .ok (acc, s)
  | k + 1, bits, s, acc =>
    match readBits bits s with
    | none => .err .ioError
    | some (v, s1) => readLoop k bits s1 (acc ++ [v])

/-- floor.rs Floor0::decode. -/
def Floor0.decode (s : List Bool) : Res FloorError (Floor0 × List Bool) :=
  match readBits 8 s with
  | none => .err .ioError
  | some (order, s1) =>
    match readBits 16 s1 with
    | none => .err .ioError
    | some (rate, s2) =>
      match readBits 16 s2 with
      | none => .err .ioError
      | some (barkMapSize, s3) =>
        match readBits 6 s3 with
        | none => .err .ioError
        | some (amplitudeBits, s4) =>
          match readBits 8 s4 with
          | none => .err .ioError
          | some (amplitudeOffset, s5) =>
            match readBits 4 s5 with
            | none => .err .ioError
            | some (nb, s6) =>
              match readLoop (nb + 1) 8 s6 [] with
              | .ok (books, s7) =>
                .ok ({ order := order, rate := rate,
                       bark_map_size := barkMapSize,
                       amplitude_bits := amplitudeBits,
                       amplitude_offset := amplitudeOffset,
                       number_of_books := nb + 1,
                       book_list := books }, s7)
              | .err e => .err e
              | .panicked => .panicked
              | .diverged => .diverged

/-- The class-record loop of Floor1::decode: count class records, each with
dimensions (3 bits + 1), subclasses (2 bits), an optional masterbook byte,
and 2^subclasses subclass-book bytes each decremented by one. -/
def classLoop : Nat → List Bool → List FloorClass →
    Res FloorError (List FloorClass × List Bool)
  | 0, s, acc => .ok (acc, s)
  | k + 1, s, acc =>
    match readBits 3 s with
    | none => .err .ioError
    | some (dim, s1) =>
      match readBits 2 s1 with
      | none => .err .ioError
      | some (sub, s2) =>
        match (if 0 < sub then
            match readBits 8 s2 with
            | none => none
            | some (mb, s3) => some (some mb, s3)
          else some ((none : Option Nat), s2) :
            Option (Option Nat × List Bool)) with
        | none => .err .ioError
        | some (mb, s3) =>
          match readLoop (2 ^ sub) 8 s3 [] with
          | .ok (raw, s4) =>
            classLoop k s4
              (acc ++ [{ dimensions := dim + 1, subclasses := sub,
                         masterbooks := mb,
                         subclass_books := raw.map (fun b => (b : Int) - 1) }])
          | .err e => .err e
          | .panicked => .panicked
          | .diverged => .diverged

/-- The x_list loop of Floor1::decode: for every entry of
partition_class_list in order, look that class up (a Rust index panic if it
were out of range), assert its dimensions nonzero, and read dimensions
many rangebits-wide values, appending each to x_list. -/
def xListLoop (classes : List FloorClass) (rangebits : Nat) :
    List Nat → List Bool → List Nat → Res FloorError (List Nat × List Bool)
  | [], s, acc => .ok (acc, s)
  | c :: rest, s, acc =>
    match classes.get? c with
    | none => .panicked
    | some cl =>
      if cl.dimensions = 0 then .panicked
      else
        match readLoop cl.dimensions rangebits s [] with
        | .ok (vals, s1) => xListLoop classes rangebits rest s1 (acc ++ vals)
        | .err e => .err e
        | .panicked => .panicked
        | .diverged => .diverged

/-- floor.rs Floor1::decode.  Reads partitions (5 bits) and the class list,
takes the maximum of the class list with .max().unwrap() (a panic when the
list is empty), decodes the classes, multiplier and rangebits, seeds
x_list with [0, 2^rangebits], runs the x_list loop, and finally rejects an
x_list longer than 65 entries. -/
def Floor1.decode (s : List Bool) : Res FloorError (Floor1 × List Bool) :=
  match readBits 5 s with
  | none => .err .ioError
  | some (partitions, s1) =>
    match readLoop partitions 4 s1 [] with
    | .err e => .err e
    | .panicked => .panicked
    | .diverged => .diverged
    | .ok (pcl, s2) =>
      match pcl.max? with
      | none => .panicked
      | some maximumClass =>
        match classLoop (maximumClass + 1) s2 [] with
        | .err e => .err e
        | .panicked => .panicked
        | .diverged => .diverged
        | .ok (classes, s3) =>
          match readBits 2 s3 with
          | none => .err .ioError
          | some (mult, s4) =>
            match readBits 4 s4 with
            | none => .err .ioError
            | some (rangebits, s5) =>
              match xListLoop classes rangebits pcl s5 [0, 2 ^ rangebits] with
              | .err e => .err e
              | .panicked => .panicked
              | .diverged => .diverged
              | .ok (xs, s6) =>
                if 65 < xs.length then .err (.xListTooLong xs.length)
                else
                  .ok ({ partitions := partitions,
                         partition_class_list := pcl,
                         maximum_class := maximumClass,
                         classes := classes,
                         multiplier := mult + 1,
                         rangebits := rangebits,
                         x_list := xs }, s6)

/-- floor.rs Floor::decode: a 16-bit type tag dispatching to Floor0 or
Floor1; other tags are the InvalidFloorType error. -/
def Floor.decode (s : List Bool) : Res FloorError (Floor × List Bool) :=
  match readBits 16 s with
  | none => .err .ioError
  | some (ty, s1) =>
    if ty = 0 then
      match Floor0.decode s1 with
      | .ok (f, s2) => .ok (.zero f, s2)
      | .err e => .err e
      | .panicked => .panicked
      | .diverged => .diverged
    else if ty = 1 then
      match Floor1.decode s1 with
      | .ok (f, s2) => .ok (.one f, s2)
      | .err e => .err e
      | .panicked => .panicked
      | .diverged => .diverged
    else .err (.invalidFloorType ty)

/-- mapping.rs MappingError (io::Error collapsed to one case). -/
inductive MappingError where
  | invalidMappingType : Nat → MappingError
  | polarAngEqualsMag : Nat → Nat → MappingError
  | polarMagInvalid : Nat → MappingError
  | polarAngInvalid : Nat → MappingError
  | reserved : Nat → MappingError
  | muxInvalid : Nat → MappingError
  | ioError : MappingError
deriving Repr, DecidableEq

/-- mapping.rs Submap. -/
structure Submap where
  floor : Nat
  residue : Nat
deriving Repr, DecidableEq

/-- mapping.rs Mapping. -/
structure Mapping where
  mapping_type : Nat
  submaps : Nat
  coupling_steps : Nat
  magnitude : List Nat
  angle : List Nat
  mux : List Nat
  submaps_vec : List Submap
deriving Repr, DecidableEq

/-- mapping.rs: the number of audio channels is hardcoded to 1 (the TODO in
the source says it should come from the identification header). -/
def audio_channels : Nat := 1

/-- The coupling-step loop of Mapping::decode with polar coupling in use:
magnitude and angle are each read with ilog(audio_channels - 1) bits and
validated. -/
def couplingLoop : Nat → List Bool → List Nat → List Nat →
    Res MappingError ((List Nat × List Nat) × List Bool)
  | 0, s, mags, angs => .ok ((mags, angs), s)
  | k + 1, s, mags, angs =>
    match readBits (ilog (audio_channels - 1)) s with
    | none => .err .ioError
    | some (m, s1) =>
      match readBits (ilog (audio_channels - 1)) s1 with
      | none => .err .ioError
      | some (a, s2) =>
        if m = a then .err (.polarAngEqualsMag m a)
        else if audio_channels ≤ m then .err (.polarMagInvalid m)
        else if audio_channels ≤ a then .err (.polarAngInvalid a)
        else couplingLoop k s2 (mags ++ [m]) (angs ++ [a])

/-- The coupling-step section after the coupling_steps byte has been
read: coupling_steps is the byte plus one computed on u8, so a byte of
255 is the debug-build overflow panic; otherwise run the coupling loop
and package its result. -/
def polarTail (cs : Nat) (s1 : List Bool) :
    Res MappingError ((Nat × List Nat × List Nat) × List Bool) :=
  if cs = 255 then .panicked
  else
    match couplingLoop (cs + 1) s1 [] [] with
    | .ok ((mags, angs), s2) => .ok ((cs + 1, mags, angs), s2)
    | .err e => .err e
    | .panicked => .panicked
    | .diverged => .diverged

/-- The polar-coupling branch of Mapping::decode, entered when the polar
flag bit is set: read coupling_steps (8 bits + 1), then the coupling
loop. -/
def polarBranch (s : List Bool) :
    Res MappingError ((Nat × List Nat × List Nat) × List Bool) :=
  match readBits 8 s with
  | none => .err .ioError
  | some (cs, s1) => polarTail cs s1

/-- The channel-multiplex loop of Mapping::decode (one 4-bit value per
audio channel, each required to be below submaps). -/
def muxLoop (submaps : Nat) : Nat → List Bool → List Nat →
    Res MappingError (List Nat × List Bool)
  | 0, s, acc => .ok (acc, s)
  | k + 1, s, acc =>
    match readBits 4 s with
    | none => .err .ioError
    | some (v, s1) =>
      if submaps ≤ v then .err (.muxInvalid v)
      else muxLoop submaps k s1 (acc ++ [v])

/-- mapping.rs Submap::decode: an unused 8-bit time placeholder, then the
floor and residue numbers. -/
def Submap.decode (s : List Bool) : Res MappingError (Submap × List Bool) :=
  match readBits 8 s with
  | none => .err .ioError
  | some (_, s1) =>
    match readBits 8 s1 with
    | none => .err .ioError
    | some (fl, s2) =>
      match readBits 8 s2 with
      | none => .err .ioError
      | some (res, s3) => .ok ({ floor := fl, residue := res }, s3)

/-- The submap-record loop of Mapping::decode. -/
def submapLoop : Nat → List Bool → List Submap →
    Res MappingError (List Submap × List Bool)
  | 0, s, acc => .ok (acc, s)
  | k + 1, s, acc =>
    match Submap.decode s with
    | .ok (sm, s1) => submapLoop k s1 (acc ++ [sm])
    | .err e => .err e
    | .panicked => .panicked
    | .diverged => .diverged

/-- The tail of Mapping::decode after the polar-coupling section: the
2-bit reserved field, the channel multiplex values, and the submap
records, assembled into the final Mapping value. -/
def afterPolar (mappingType submaps couplingSteps : Nat)
    (mags angs : List Nat) (s5 : List Bool) :
    Res MappingError (Mapping × List Bool) :=
  match readBits 2 s5 with
  | none => .err .ioError
  | some (reservedV, s6) =>
    if reservedV ≠ 0 then .err (.reserved reservedV)
    else
      match (if 1 < submaps then muxLoop submaps audio_channels s6 []
          else .ok (List.replicate audio_channels 0, s6)) with
      | .err e => .err e
      | .panicked => .panicked
      | .diverged => .diverged
      | .ok (mux, s7) =>
        match submapLoop submaps s7 [] with
        | .err e => .err e
        | .panicked => .panicked
        | .diverged => .diverged
        | .ok (sms, s8) =>
          .ok ({ mapping_type := mappingType,
                 submaps := submaps,
                 coupling_steps := couplingSteps,
                 magnitude := mags, angle := angs,
                 mux := mux, submaps_vec := sms }, s8)

/-- mapping.rs Mapping::decode. -/
def Mapping.decode (s : List Bool) : Res MappingError (Mapping × List Bool) :=
  match readBits 16 s with
  | none => .err .ioError
  | some (mappingType, s1) =>
    if mappingType ≠ 0 then .err (.invalidMappingType mappingType)
    else
      match readBits 1 s1 with
      | none => .err .ioError
      | some (flag, s2) =>
        match (if flag = 1 then
            match readBits 4 s2 with
            | none => none
            | some (v, s3) => some (v + 1, s3)
          else some (1, s2) : Option (Nat × List Bool)) with
        | none => .err .ioError
        | some (submaps, s3) =>
          match readBits 1 s3 with
          | none => .err .ioError
          | some (polarFlag, s4) =>
            match (if polarFlag = 1 then polarBranch s4
                else .ok ((0, [], []), s4)) with
            | .err e => .err e
            | .panicked => .panicked
            | .diverged => .diverged
            | .ok ((couplingSteps, mags, angs), s5) =>
              afterPolar mappingType submaps couplingSteps mags angs s5

namespace vorbis

/-- vorbis.rs Codebook (the older, panicking revision kept in vorbis.rs):
sparse is a plain bool and lookup_type is never assigned after decoding,
so it keeps its default value 0. -/
structure Codebook where
  dimensions : Nat
  entries : Nat
  ordered : Bool
  sparse : Bool
  codeword_lengths : List (Option Nat)
  lookup_type : Nat
  vector_lookup_table : Option VectorLookupTable
  huffman_tree : HTree
deriving Repr, DecidableEq

/-- The per-entry loop of the vorbis.rs codebook decoder; unlike
codebook.rs, each codeword length here is a 1-bit field plus one. -/
def entryLoop (sparse : Bool) : Nat → List Bool → List (Option Nat) →
    Res Empty (List (Option Nat) × List Bool)
  | 0, s, acc => .ok (acc, s)
  | k + 1, s, acc =>
    if sparse then
      match readBits 1 s with
      | none => .panicked
      | some (flag, s1) =>
        if flag = 1 then
          match readBits 1 s1 with
          | none => .panicked
          | some (v, s2) => entryLoop sparse k s2 (acc ++ [some (v + 1)])
        else
          entryLoop sparse k s1 (acc ++ [none])
    else
      match readBits 1 s with
      | none => .panicked
      | some (v, s2) => entryLoop sparse k s2 (acc ++ [some (v + 1)])

/-- The ordered run-length loop of the vorbis.rs codebook decoder: an
overshoot of the entry count panics inside the loop, an exact hit breaks
out of it. -/
def orderedLoop (entries : Nat) : Nat → Nat → Nat → List Bool →
    List (Option Nat) → Res Empty (List (Option Nat) × List Bool)
  | 0, _, _, _, _ => .diverged
  | fuel + 1, ce, cl, s, acc =>
    if ce < entries then
      match readBits (ilog (entries - ce)) s with
      | none => .panicked
      | some (number, s1) =>
        if cl = 255 then .panicked
        else
          let ce' := ce + number
          if entries < ce' then .panicked
          else if ce' = entries then
            .ok (acc ++ List.replicate number (some cl), s1)
          else
            orderedLoop entries fuel ce' (cl + 1) s1
              (acc ++ List.replicate number (some cl))
    else .ok (acc, s)

/-- The multiplicand loop of the vorbis.rs codebook decoder. -/
def multLoop : Nat → Nat → List Bool → List Nat →
    Res Empty (List Nat × List Bool)
  | 0, _, s, acc => .ok (acc, s)
  | k + 1, bits, s, acc =>
    match readBits bits s with
    | none => .panicked
    | some (v, s1) => multLoop k bits s1 (acc ++ [v])

/-- The lookup-table section of the vorbis.rs codebook decoder; a reserved
lookup type panics here instead of returning an error. -/
def lookupSection (lookupType entries dimensions : Nat) (s : List Bool) :
    Res Empty (Option VectorLookupTable × List Bool) :=
  if lookupType = 0 then .ok (none, s)
  else if lookupType = 1 ∨ lookupType = 2 then
    match readBits 32 s with
    | none => .panicked
    | some (minv, s1) =>
      match readBits 32 s1 with
      | none => .panicked
      | some (delv, s2) =>
        match readBits 4 s2 with
        | none => .panicked
        | some (vb, s3) =>
          match readBits 1 s3 with
          | none => .panicked
          | some (seqp, s4) =>
            match (if lookupType = 1 then
                lookup1Aux entries dimensions (entries + 1) 0
              else .ok (entries * dimensions) : Res Empty Nat) with
            | .err e => e.elim
            | .panicked => .panicked
            | .diverged => .diverged
            | .ok lookupValues =>
              match multLoop lookupValues (vb + 1) s4 [] with
              | .ok (mults, s5) =>
                .ok (some { minimum_value := minv, delta_value := delv,
                            value_bits := vb + 1, sequence_p := seqp = 1,
                            lookup_values := lookupValues,
                            multiplicands := mults }, s5)
              | .err e => e.elim
              | .panicked => .panicked
              | .diverged => .diverged
  else .panicked

/-- vorbis.rs Codebook::decode: the panicking revision; every read failure
and every validation failure is a panic rather than an error return. -/
def Codebook.decode (s : List Bool) : Res Empty (Codebook × List Bool) :=
  match readBits 8 s with
  | none => .panicked
  | some (p0, s1) =>
    match readBits 8 s1 with
    | none => .panicked
    | some (p1, s2) =>
      match readBits 8 s2 with
      | none => .panicked
      | some (p2, s3) =>
        if p0 = 0x42 ∧ p1 = 0x43 ∧ p2 = 0x56 then
          match readBits 16 s3 with
          | none => .panicked
          | some (dimensions, s4) =>
            match readBits 24 s4 with
            | none => .panicked
            | some (entries, s5) =>
              match readBits 1 s5 with
              | none => .panicked
              | some (orderedBit, s6) =>
                let ordered := orderedBit = 1
                match (if ordered = false then
                    match readBits 1 s6 with
                    | none => .panicked
                    | some (sp, s7) => (
                      match entryLoop (sp = 1) entries s7 [] with
                      | .ok (ls, s8) => .ok ((sp = 1, ls), s8)
                      | .err e => e.elim
                      | .panicked => .panicked
                      | .diverged => .diverged)
                  else
                    match readBits 1 s6 with
                    | none => .panicked
                    | some (v, s7) => (
                      match orderedLoop entries (s7.length + 1) 0 (v + 1) s7 [] with
                      | .ok (ls, s8) => .ok ((false, ls), s8)
                      | .err e => e.elim
                      | .panicked => .panicked
                      | .diverged => .diverged) :
                    Res Empty ((Bool × List (Option Nat)) × List Bool)) with
                | .err e => e.elim
                | .panicked => .panicked
                | .diverged => .diverged
                | .ok ((sparse, codewordLengths), s9) =>
                  match readBits 4 s9 with
                  | none => .panicked
                  | some (lookupType, s10) =>
                    match lookupSection lookupType entries dimensions s10 with
                    | .err e => e.elim
                    | .panicked => .panicked
                    | .diverged => .diverged
                    | .ok (table, s12) =>
                      match buildTree codewordLengths 0 .fresh with
                      | none => .panicked
                      | some tree =>
                        .ok ({ dimensions := dimensions, entries := entries,
                               ordered := ordered, sparse := sparse,
                               codeword_lengths := codewordLengths,
                               lookup_type := 0,
                               vector_lookup_table := table,
                               huffman_tree := tree }, s12)
        else .panicked

/-- vorbis.rs SetupHeader: the codebook count and the decoded codebooks. -/
structure SetupHeader where
  vorbis_codebook_count : Nat
  codebooks : List Codebook
deriving Repr, DecidableEq

/-- The codebook loop of SetupHeader::from_bytes. -/
def codebookLoop : Nat → List Bool → List Codebook →
    Res Empty (List Codebook × List Bool)
  | 0, s, acc => .ok (acc, s)
  | k + 1, s, acc =>
    match Codebook.decode s with
    | .ok (cb, s1) => codebookLoop k s1 (acc ++ [cb])
    | .err e => e.elim
    | .panicked => .panicked
    | .diverged => .diverged

/-- The tail of SetupHeader::from_bytes after the codebook loop: a normal
loop exit runs straight into the todo!() macro, which panics
unconditionally; a loop panic or divergence is passed through. -/
def finishSetup (r : Res Empty (List Codebook × List Bool)) :
    Res Empty SetupHeader :=
  match r with
  | .ok _ => .panicked
  | .err e => e.elim
  | .panicked => .panicked
  | .diverged => .diverged

/-- vorbis.rs SetupHeader::from_bytes: reads an 8-bit codebook count plus
one, decodes that many codebooks, and then hits the todo!() macro, which
panics unconditionally. -/
def SetupHeader.from_bytes (bytes : List Nat) : Res Empty SetupHeader :=
  match readBits 8 (bitsOfBytes bytes) with
  | none => .panicked
  | some (count, s1) => finishSetup (codebookLoop (count + 1) s1 [])

end vorbis

/-- The value of an i32 cast to usize with the as operator: two's
complement reinterpretation modulo 2^64 (usize is 64 bits here), so any
negative coordinate becomes a huge index. -/
def usizeOfI32 (x : Int) : Nat := (x % (2 ^ 64 : Int)).toNat

/-- Writing v[i] = y on a Rust Vec: none models the index-out-of-bounds
panic. -/
def setChecked (v : List Int) (i : Nat) (y : Int) : Option (List Int) :=
  if i < v.length then some (v.set i y) else none

/-- x fits in an i32: an arithmetic result outside this range is a
debug-build overflow panic. -/
def inI32 (x : Int) : Bool := decide (-(2 ^ 31) ≤ x ∧ x < 2 ^ 31)

/-- The body of the render_line for loop: per iteration the error term
grows by ady (an i32 addition, panicking on overflow), overflowing the
adx threshold into a sy step (otherwise a base step; the executed i32
addition to y panics on overflow), and the new y is written at the
current x.  The err -= adx update needs no check: adx is positive at
every call site (render_line panics on adx = 0 before the loop) and that
branch has adx ≤ err, so the difference stays within [0, err]. -/
def renderLoop (base sy ady adx : Int) : Nat → Int → Int → Int →
    List Int → Res Empty (List Int)
  | 0, _, _, _, v => .ok v
  | k + 1, x, y, err, v =>
    if inI32 (err + ady) then
      let err1 := err + ady
      let y1 := if adx ≤ err1 then y + sy else y + base
      let err2 := if adx ≤ err1 then err1 - adx else err1
      if inI32 y1 then
        match setChecked v (usizeOfI32 x) y1 with
        | none => .panicked
        | some v1 => renderLoop base sy ady adx k (x + 1) y1 err2 v1
      else .panicked
    else .panicked

/-- util::render_line.  The three asserts panic when violated; the i32
subtraction dy = y1 - y0 and the i32 computation of sy = base ± 1 panic
on overflow, and dy = -2^31 panics inside dy.abs(); with x0 = x1 the
computation of base panics with an integer division by zero; the loop
runs for x in x0+1 .. x1, exclusive of x1.  adx = x1 - x0 needs no
check (after the asserts 0 ≤ x0 ≤ x1 < 2^31), nor do base.abs() and
ady = dy.abs() - base.abs() * adx (once dy ≠ -2^31, the quotient
magnitude is at most the dividend magnitude and ady lies in [0, adx)). -/
def render_line (x0 y0 x1 y1 : Int) (v : List Int) : Res Empty (List Int) :=
  if x0 ≤ x1 then
    if usizeOfI32 x0 ≤ v.length then
      if usizeOfI32 x1 ≤ v.length then
        if inI32 (y1 - y0) then
          let dy := y1 - y0
          let adx := x1 - x0
          if adx = 0 then .panicked
          else
            let base := Int.tdiv dy adx
            if inI32 (if dy < 0 then base - 1 else base + 1) then
              let sy := if dy < 0 then base - 1 else base + 1
              if dy = -(2 ^ 31) then .panicked
              else
                let ady := (dy.natAbs : Int) - (base.natAbs : Int) * adx
                match setChecked v (usizeOfI32 x0) y0 with
                | none => .panicked
                | some v1 =>
                  renderLoop base sy ady adx (x1 - (x0 + 1)).toNat (x0 + 1)
                    y0 0 v1
            else .panicked
        else .panicked
      else .panicked
    else .panicked
  else .panicked

/-- The y value the render_line recurrence produces after a number of
steps beyond x0 (step 0 is y0 itself). -/
def lineYAux (base sy ady adx : Int) : Nat → Int → Int → Int
  | 0, y, _ => y
  | k + 1, y, err =>
    let err1 := err + ady
    if adx ≤ err1 then lineYAux base sy ady adx k (y + sy) (err1 - adx)
    else lineYAux base sy ady adx k (y + base) err1

/-- The y value of the rasterized line from (x0,y0) to (x1,y1) at integer
abscissa i, following the render_line recurrence. -/
def lineY (x0 y0 x1 y1 : Int) (i : Nat) : Int :=
  let dy := y1 - y0
  let adx := x1 - x0
  let base := Int.tdiv dy adx
  let sy := if dy < 0 then base - 1 else base + 1
  let ady := (dy.natAbs : Int) - (base.natAbs : Int) * adx
  lineYAux base sy ady adx (i - x0.toNat) y0 0

/-- The buffer render_line is specified to produce: positions x0 ≤ i < x1
carry the rasterized line (y0 at x0), everything else is untouched. -/
def fillBres (x0 y0 x1 y1 : Int) (v : List Int) : List Int :=
  (List.range v.length).map (fun i =>
    if x0.toNat ≤ i ∧ i < x1.toNat then
      (if i = x0.toNat then y0 else lineY x0 y0 x1 y1 i)
    else v.getD i 0)

/-! Theorems.  Each claim of the specification gets one theorem below,
with auxiliary lemmas and concrete inputs defined in between. -/

/-- The Frampton codebook 0 bytes from the codebook.rs unit test. -/
def c7bytes : List Nat := [66, 67, 86, 1, 0, 8, 0, 0, 0, 49, 76, 32, 197, 128]

/-- The claim-relevant fields of the codebook decoded from c7bytes (the
Huffman tree, which the claim does not mention, is left out). -/
def c7fields : Option (Nat × Nat × Bool × Option Bool × List (Option Nat) ×
    Nat × Option VectorLookupTable) :=
  match Codebook.decode (bitsOfBytes c7bytes) with
  | .ok (cb, _) => some (cb.dimensions, cb.entries, cb.ordered, cb.sparse,
      cb.codeword_lengths, cb.lookup_type, cb.vector_lookup_table)
  | _ => none

/-- C7: decoding the bytes [66,67,86,1,0,8,0,0,0,49,76,32,197,128] with
Codebook::decode succeeds and yields dimensions 1, entries 8, not ordered,
sparse = Some(false), codeword_lengths [1,3,4,7,2,5,6,7] (all present),
lookup_type 0 and no vector lookup table. -/
theorem c7_codebook_concrete_decode :
    c7fields = some (1, 8, false, some false,
      [some 1, some 3, some 4, some 7, some 2, some 5, some 6, some 7],
      0, none) := by
  rfl

/-- The truncated ordered-codebook bytes from the codebook.rs unit test. -/
def c2bytes : List Nat := [66, 67, 86, 1, 0, 8, 0, 0, 61]

/-- C2: the claim says the ordered path reads the initial codeword length
as a 5-bit field plus one; the code reads a 1-bit field plus one.  On the
code's own too-many-entries test input the 1-bit read produces the
TooManyEntries(15) error the unit test expects, while the claimed 5-bit
read would exhaust the 9-byte input and fail with the end-of-data io
error, so the two cannot coincide. -/
theorem c2_ordered_initial_length_is_one_bit :
    Codebook.decode (bitsOfBytes c2bytes) = .err (.tooManyEntries 15) ∧
    Codebook.decodeSpec5 (bitsOfBytes c2bytes) = .err .ioError := by
  exact ⟨rfl, rfl⟩

/-- C1: SetupHeader::from_bytes never returns a setup header: after
decoding the codebook list it unconditionally hits todo!(), and every
failure on the way is a panic, so no input reaches a normal return. -/
theorem c1_from_bytes_never_returns (bytes : List Nat) :
    (vorbis.SetupHeader.from_bytes bytes).isOkB = false := by
  unfold vorbis.SetupHeader.from_bytes
  cases h : readBits 8 (bitsOfBytes bytes) with
  | none => rfl
  | some p =>
    obtain ⟨count, s1⟩ := p
    show (vorbis.finishSetup (vorbis.codebookLoop (count + 1) s1 [])).isOkB = false
    cases vorbis.codebookLoop (count + 1) s1 [] with
    | ok a => rfl
    | err e => exact e.elim
    | panicked => rfl
    | diverged => rfl

/-- C6 counterexample: on the bytes [1,0,0] the floor type tag is 1 and
the Floor1 partitions field is 0; decoding panics on the unwrap of the
maximum of the empty class list instead of returning an error value, so
the failure is not handed back to the caller as a recoverable result. -/
theorem c6_partitions_zero_counterexample :
    (Floor.decode (bitsOfBytes [1, 0, 0])).isErrB = false ∧
    (Floor.decode (bitsOfBytes [1, 0, 0])).isPanicB = true := by
  exact ⟨rfl, rfl⟩

/-- C6 (amended): whenever the Floor1 partitions field decodes to 0,
Floor1 decoding panics (max of the empty partition class list is
unwrapped), a process abort rather than a recoverable error result. -/
theorem c6_partitions_zero_panics (s s' : List Bool)
    (h : readBits 5 s = some (0, s')) :
    Floor1.decode s = .panicked := by
  unfold Floor1.decode
  rw [h]
  simp [readLoop]

/-- C6 witness: the amended theorem applied to the single byte 0, whose
low five bits give partitions = 0. -/
theorem c6_partitions_zero_panics_witness :
    Floor1.decode (bitsOfBytes [0]) = .panicked :=
  c6_partitions_zero_panics (bitsOfBytes [0]) ((bitsOfBytes [0]).drop 5) rfl

/-- An ordered codebook stream with entries = 2 whose run-length loop
spins through 32 empty length groups before assigning length 33 to both
entries: sync, dimensions 1, entries 2, then bits 1 (ordered), 0 (initial
length 1), 64 zero bits (32 empty groups), bits 01 (count 2), 0000
(lookup type 0). -/
def c3bytes : List Nat :=
  [66, 67, 86, 1, 0, 2, 0, 0, 1, 0, 0, 0, 0, 0, 0, 0, 8]

/-- The codeword lengths decoded from c3bytes. -/
def c3lengths : Option (List (Option Nat)) :=
  match Codebook.decode (bitsOfBytes c3bytes) with
  | .ok (cb, _) => some cb.codeword_lengths
  | _ => none

set_option maxRecDepth 8000 in
/-- C3 counterexample: decoding c3bytes succeeds and assigns the codeword
length 33 to both entries, so a successfully decoded codebook can carry
lengths above the claimed bound 32. -/
theorem c3_length_above_32_counterexample :
    c3lengths = some [some 33, some 33] ∧ ¬ (33 ≤ 32) := by
  exact ⟨rfl, by decide⟩

/-- With audio_channels hardcoded to 1, the polar-coupling branch never
succeeds: either the coupling_steps byte is missing (io error), or the
byte is 255 and the u8 increment coupling_steps = byte + 1 overflows and
panics (debug build), or the magnitude and angle of the first coupling
step are both read as ilog(0) = 0-bit fields, decode to 0 each, and fail
the magnitude-not-equal-angle check. -/
theorem polarBranch_spec (s : List Bool) :
    polarBranch s = .err .ioError ∨
    polarBranch s = .err (.polarAngEqualsMag 0 0) ∨
    polarBranch s = .panicked := by
  unfold polarBranch
  cases h : readBits 8 s with
  | none => left; rfl
  | some p =>
    obtain ⟨cs, s1⟩ := p
    by_cases hcs : cs = 255
    · right; right
      show polarTail cs s1 = Res.panicked
      unfold polarTail
      rw [if_pos hcs]
    · right; left
      have hloop : couplingLoop (cs + 1) s1 [] [] =
          .err (.polarAngEqualsMag 0 0) := by
        unfold couplingLoop
        have h0 : ∀ t : List Bool, readBits (ilog (audio_channels - 1)) t =
            some (0, t) := by
          intro t
          simp [audio_channels, ilog, ilogAux, readBits, natOfBits]
        simp only [h0]
        simp
      show polarTail cs s1 = Res.err (MappingError.polarAngEqualsMag 0 0)
      unfold polarTail
      rw [if_neg hcs, hloop]

/-- The tail of Mapping::decode copies the coupling step count it is
given into the coupling_steps field of the returned mapping. -/
theorem afterPolar_coupling {mt sm cs : Nat} {mags angs : List Nat}
    {s : List Bool} {m : Mapping} {s' : List Bool}
    (h : afterPolar mt sm cs mags angs s = .ok (m, s')) :
    m.coupling_steps = cs := by
  unfold afterPolar at h
  split at h
  · exact absurd h (by simp)
  · split at h
    · exact absurd h (by simp)
    · split at h
      · exact absurd h (by simp)
      · exact absurd h (by simp)
      · exact absurd h (by simp)
      · split at h
        · exact absurd h (by simp)
        · exact absurd h (by simp)
        · exact absurd h (by simp)
        · injection h with h1
          injection h1 with hm hs
          rw [← hm]

/-- C10 counterexample: on the four-byte input [0,0,254,3] the mapping
type is 0, the polar-coupling flag is set, and the coupling_steps byte
decodes to 255, so the u8 increment coupling_steps = byte + 1 overflows
and the decoder panics (debug build); the outcome is not an error
return, refuting the claim that a set polar flag always yields one. -/
theorem c10_polar_overflow_counterexample :
    Mapping.decode (bitsOfBytes [0, 0, 254, 3]) = .panicked ∧
    (Mapping.decode (bitsOfBytes [0, 0, 254, 3])).isErrB = false := by
  exact ⟨rfl, rfl⟩

/-- C10 (amended): with audio_channels fixed at 1, a set polar-coupling
flag means Mapping::decode never succeeds: the io error on a missing
coupling_steps byte, a panic on the overflowing u8 increment when the
coupling_steps byte is 255 (debug build), or otherwise the
magnitude-equals-angle error on the first coupling step, whose channel
indices are both read as ilog(0) = 0-bit fields and decode to 0; and no
successfully decoded mapping ever has coupling_steps > 0. -/
theorem c10_polar_coupling_always_fails :
    (∀ s, polarBranch s = .err .ioError ∨
        polarBranch s = .err (.polarAngEqualsMag 0 0) ∨
        polarBranch s = .panicked) ∧
    (∀ s m s', Mapping.decode s = .ok (m, s') → m.coupling_steps = 0) := by
  refine ⟨polarBranch_spec, ?_⟩
  intro s m s' h
  unfold Mapping.decode at h
  split at h
  · exact absurd h (by simp)
  · split at h
    · exact absurd h (by simp)
    · split at h
      · exact absurd h (by simp)
      · split at h
        · exact absurd h (by simp)
        · split at h
          · exact absurd h (by simp)
          · rename_i polarFlag s4 hbit
            split at h
            · exact absurd h (by simp)
            · exact absurd h (by simp)
            · exact absurd h (by simp)
            · rename_i cs mags angs s5 heq
              have hcs : cs = 0 := by
                by_cases hp : polarFlag = 1
                · rw [if_pos hp] at heq
                  rcases polarBranch_spec s4 with hb | hb | hb <;>
                    rw [hb] at heq <;> exact absurd heq (by simp)
                · rw [if_neg hp] at heq
                  injection heq with h1
                  injection h1 with h2 h3
                  injection h2 with h4 h5
                  omega
              rw [afterPolar_coupling h, hcs]

/-- The mapping decoded from the all-zero six-byte input. -/
def c10map : Mapping :=
  { mapping_type := 0, submaps := 1, coupling_steps := 0, magnitude := [],
    angle := [], mux := [0], submaps_vec := [{ floor := 0, residue := 0 }] }

/-- C10 witness: the claim theorem applied to the all-zero six-byte
input, whose polar flag is clear and which decodes successfully with
coupling_steps = 0. -/
theorem c10_polar_coupling_witness : c10map.coupling_steps = 0 :=
  c10_polar_coupling_always_fails.2 (bitsOfBytes [0, 0, 0, 0, 0, 0]) c10map
    [false, false, false, false] rfl

/-- The non-ordered entry loop appends exactly one entry per iteration,
and every appended present length is a 5-bit value plus one, hence
between 1 and 32. -/
theorem entryLoop_ok {sp : Bool} :
    ∀ (k : Nat) (s : List Bool) (acc L : List (Option Nat)) (s' : List Bool),
      (∀ x ∈ acc, x = none ∨ ∃ l, x = some l ∧ 1 ≤ l ∧ l ≤ 32) →
      entryLoop sp k s acc = .ok (L, s') →
      L.length = acc.length + k ∧
        ∀ x ∈ L, x = none ∨ ∃ l, x = some l ∧ 1 ≤ l ∧ l ≤ 32 := by
  intro k
  induction k with
  | zero =>
    intro s acc L s' hacc h
    unfold entryLoop at h
    injection h with h1
    injection h1 with h2 h3
    subst h2
    exact ⟨by omega, hacc⟩
  | succ n ih =>
    intro s acc L s' hacc h
    have step : ∀ (v : Nat) (s2 : List Bool), v < 32 →
        entryLoop sp n s2 (acc ++ [some (v + 1)]) = .ok (L, s') →
        L.length = acc.length + (n + 1) ∧
          ∀ x ∈ L, x = none ∨ ∃ l, x = some l ∧ 1 ≤ l ∧ l ≤ 32 := by
      intro v s2 hv hrec
      have hacc2 : ∀ x ∈ acc ++ [some (v + 1)],
          x = none ∨ ∃ l, x = some l ∧ 1 ≤ l ∧ l ≤ 32 := by
        intro x hx
        rcases List.mem_append.mp hx with hx1 | hx2
        · exact hacc x hx1
        · right
          refine ⟨v + 1, ?_, by omega, by omega⟩
          simpa using hx2
      have hih := ih s2 (acc ++ [some (v + 1)]) L s' hacc2 hrec
      refine ⟨?_, hih.2⟩
      have hlen := hih.1
      simp only [List.length_append, List.length_cons, List.length_nil] at hlen
      omega
    unfold entryLoop at h
    split at h
    · -- sparse
      split at h
      · exact absurd h (by simp)
      · rename_i flag s1 hrb
        split at h
        · -- used flag set: a 5-bit length
          split at h
          · exact absurd h (by simp)
          · rename_i v s2 hr5
            exact step v s2 (by have := readBits_lt hr5; omega) h
        · -- unused sparse entry
          have hacc2 : ∀ x ∈ acc ++ [none],
              x = none ∨ ∃ l, x = some l ∧ 1 ≤ l ∧ l ≤ 32 := by
            intro x hx
            rcases List.mem_append.mp hx with hx1 | hx2
            · exact hacc x hx1
            · left; simpa using hx2
          have hih := ih s1 (acc ++ [none]) L s' hacc2 h
          refine ⟨?_, hih.2⟩
          have hlen := hih.1
          simp only [List.length_append, List.length_cons,
            List.length_nil] at hlen
          omega
    · -- not sparse: always a 5-bit length
      split at h
      · exact absurd h (by simp)
      · rename_i v s2 hr5
        exact step v s2 (by have := readBits_lt hr5; omega) h

/-- The ordered run-length loop: on success the assigned entries fill the
declared count exactly, and every assigned length is at least 1 because
the running length starts positive and only grows. -/
theorem orderedLoop_ok {entries : Nat} :
    ∀ (fuel ce cl : Nat) (s : List Bool) (acc L : List (Option Nat))
      (s' : List Bool),
      (∀ x ∈ acc, ∃ l, x = some l ∧ 1 ≤ l) → 1 ≤ cl →
      orderedLoop entries fuel ce cl s acc = .ok (L, s') →
      L.length + ce = acc.length + entries ∧
        ∀ x ∈ L, ∃ l, x = some l ∧ 1 ≤ l := by
  intro fuel
  induction fuel with
  | zero =>
    intro ce cl s acc L s' hacc hcl h
    unfold orderedLoop at h
    exact absurd h (by simp)
  | succ f ih =>
    intro ce cl s acc L s' hacc hcl h
    unfold orderedLoop at h
    split at h
    · -- still below the entry count
      split at h
      · exact absurd h (by simp)
      · rename_i number s1 hrb
        split at h
        · exact absurd h (by simp)
        · have hacc2 : ∀ x ∈ acc ++ List.replicate number (some cl),
              ∃ l, x = some l ∧ 1 ≤ l := by
            intro x hx
            rcases List.mem_append.mp hx with hx1 | hx2
            · exact hacc x hx1
            · exact ⟨cl, List.eq_of_mem_replicate hx2, hcl⟩
          have hih := ih (ce + number) (cl + 1) s1
            (acc ++ List.replicate number (some cl)) L s' hacc2 (by omega) h
          refine ⟨?_, hih.2⟩
          have hlen := hih.1
          simp only [List.length_append, List.length_replicate] at hlen
          omega
    · split at h
      · exact absurd h (by simp)
      · rename_i hnotlt hnotgt
        injection h with h1
        injection h1 with h2 h3
        subst h2
        exact ⟨by omega, hacc⟩

/-- A successful non-ordered branch yields one codeword length per entry,
each present one between 1 and 32. -/
theorem notOrderedBranch_ok {entries : Nat} {s : List Bool}
    {sp : Option Bool} {ls : List (Option Nat)} {s' : List Bool}
    (h : notOrderedBranch entries s = .ok ((sp, ls), s')) :
    ls.length = entries ∧
      ∀ x ∈ ls, x = none ∨ ∃ l, x = some l ∧ 1 ≤ l ∧ l ≤ 32 := by
  unfold notOrderedBranch at h
  split at h
  · exact absurd h (by simp)
  · rename_i spb s1 hrb
    split at h
    · rename_i L s2 hloop
      injection h with h1
      injection h1 with h2 h3
      injection h2 with h4 h5
      subst h5
      have := entryLoop_ok entries s1 [] L s2 (by simp) hloop
      simpa using this
    · exact absurd h (by simp)
    · exact absurd h (by simp)
    · exact absurd h (by simp)

/-- A successful ordered branch yields one codeword length per entry,
each present and positive. -/
theorem orderedBranch_ok {entries : Nat} {s : List Bool}
    {sp : Option Bool} {ls : List (Option Nat)} {s' : List Bool}
    (h : orderedBranch entries s = .ok ((sp, ls), s')) :
    ls.length = entries ∧ ∀ x ∈ ls, ∃ l, x = some l ∧ 1 ≤ l := by
  unfold orderedBranch at h
  split at h
  · exact absurd h (by simp)
  · rename_i v s1 hrb
    split at h
    · rename_i L s2 hloop
      injection h with h1
      injection h1 with h2 h3
      injection h2 with h4 h5
      subst h5
      have := orderedLoop_ok (s1.length + 1) 0 (v + 1)
        s1 [] L s2 (by simp) (by omega) hloop
      simpa using this
    · exact absurd h (by simp)
    · exact absurd h (by simp)
    · exact absurd h (by simp)

/-- C3 (amended): every successful Codebook::decode yields exactly
entries many codeword lengths, every present length is at least 1, and in
the non-ordered paths (where lengths are read as 5-bit fields plus one)
every present length is also at most 32; the ordered path carries no such
upper bound. -/
theorem c3_codeword_lengths_invariant (s : List Bool) (cb : Codebook)
    (s' : List Bool) (h : Codebook.decode s = .ok (cb, s')) :
    cb.codeword_lengths.length = cb.entries ∧
      ∀ x ∈ cb.codeword_lengths, ∀ l, x = some l →
        1 ≤ l ∧ (cb.ordered = false → l ≤ 32) := by
  unfold Codebook.decode at h
  split at h
  · exact absurd h (by simp)
  · split at h
    · exact absurd h (by simp)
    · split at h
      · exact absurd h (by simp)
      · split at h
        · -- sync pattern matched
          split at h
          · exact absurd h (by simp)
          · split at h
            · exact absurd h (by simp)
            · split at h
              · exact absurd h (by simp)
              · rename_i ordered s6 hordbit
                split at h
                · exact absurd h (by simp)
                · exact absurd h (by simp)
                · exact absurd h (by simp)
                · rename_i sparse ls s9 hbranch
                  split at h
                  · exact absurd h (by simp)
                  · split at h
                    · exact absurd h (by simp)
                    · exact absurd h (by simp)
                    · exact absurd h (by simp)
                    · split at h
                      · exact absurd h (by simp)
                      · injection h with h1
                        injection h1 with h2 h3
                        subst h2
                        by_cases hord : ordered = false
                        · rw [if_pos hord] at hbranch
                          have hg := notOrderedBranch_ok hbranch
                          refine ⟨hg.1, ?_⟩
                          intro x hx l hl
                          rcases hg.2 x hx with hnone | ⟨l2, hl2, h1l, hl32⟩
                          · rw [hnone] at hl; exact absurd hl (by simp)
                          · rw [hl2] at hl
                            injection hl with hll
                            exact ⟨by omega, fun _ => by omega⟩
                        · rw [if_neg hord] at hbranch
                          have hg := orderedBranch_ok hbranch
                          refine ⟨hg.1, ?_⟩
                          intro x hx l hl
                          obtain ⟨l2, hl2, h1l⟩ := hg.2 x hx
                          rw [hl2] at hl
                          injection hl with hll
                          refine ⟨by omega, ?_⟩
                          intro hfalse
                          exact absurd hfalse hord
        · exact absurd h (by simp)

/-- The codebook decoded from c7bytes (with a fallback record on the
impossible failure branches). -/
def c7cb : Codebook :=
  match Codebook.decode (bitsOfBytes c7bytes) with
  | .ok (cb, _) => cb
  | _ => { dimensions := 0, entries := 0, ordered := false, sparse := none,
           codeword_lengths := [], lookup_type := 0,
           vector_lookup_table := none, huffman_tree := .empty }

/-- The stream left over after decoding c7bytes. -/
def c7rest : List Bool :=
  match Codebook.decode (bitsOfBytes c7bytes) with
  | .ok (_, rest) => rest
  | _ => []

set_option maxRecDepth 8000 in
/-- C3 witness: the invariant theorem applied to the concrete codebook
decoded from c7bytes. -/
theorem c3_codeword_lengths_witness :
    c7cb.codeword_lengths.length = c7cb.entries ∧
      ∀ x ∈ c7cb.codeword_lengths, ∀ l, x = some l →
        1 ≤ l ∧ (c7cb.ordered = false → l ≤ 32) :=
  c3_codeword_lengths_invariant (bitsOfBytes c7bytes) c7cb c7rest rfl

/-- A successful fixed-count read loop appends exactly its count of
values. -/
theorem readLoop_ok :
    ∀ (k bits : Nat) (s : List Bool) (acc L : List Nat) (s' : List Bool),
      readLoop k bits s acc = .ok (L, s') → L.length = acc.length + k := by
  intro k
  induction k with
  | zero =>
    intro bits s acc L s' h
    unfold readLoop at h
    injection h with h1
    injection h1 with h2 h3
    subst h2
    omega
  | succ n ih =>
    intro bits s acc L s' h
    unfold readLoop at h
    split at h
    · exact absurd h (by simp)
    · rename_i v s1 hrb
      have := ih bits s1 (acc ++ [v]) L s' h
      simp only [List.length_append, List.length_cons, List.length_nil] at this
      omega

/-- The class record used when a partition class index is out of range
(unreachable for decoded floors). -/
def defaultFloorClass : FloorClass :=
  { dimensions := 0, subclasses := 0, masterbooks := none, subclass_books := [] }

/-- The dimension count of the class a partition class index refers to. -/
def classDims (classes : List FloorClass) (c : Nat) : Nat :=
  (classes.getD c defaultFloorClass).dimensions

/-- Each partition class list entry contributes exactly the dimension
count of its class to the x_list. -/
theorem xListLoop_ok {classes : List FloorClass} {rangebits : Nat} :
    ∀ (pcl : List Nat) (s : List Bool) (acc L : List Nat) (s' : List Bool),
      xListLoop classes rangebits pcl s acc = .ok (L, s') →
      L.length = acc.length + (pcl.map (classDims classes)).sum := by
  intro pcl
  induction pcl with
  | nil =>
    intro s acc L s' h
    unfold xListLoop at h
    injection h with h1
    injection h1 with h2 h3
    subst h2
    simp
  | cons c rest ih =>
    intro s acc L s' h
    unfold xListLoop at h
    split at h
    · exact absurd h (by simp)
    · rename_i cl hget
      split at h
      · exact absurd h (by simp)
      · split at h
        · rename_i vals s1 hread
          have hvals : vals.length = cl.dimensions := by
            have := readLoop_ok cl.dimensions rangebits s [] vals s1 hread
            simpa using this
          have hrec := ih s1 (acc ++ vals) L s' h
          have hdim : classDims classes c = cl.dimensions := by
            unfold classDims
            rw [List.getD_eq_getElem?_getD]
            rw [← List.get?_eq_getElem?]
            rw [hget]
            rfl
          simp only [List.length_append, List.map_cons, List.sum_cons] at *
          omega
        · exact absurd h (by simp)
        · exact absurd h (by simp)
        · exact absurd h (by simp)

/-- The sum of the class dimension counts over the partition class list of
a decoded Floor1, as the specification measures the x_list. -/
def sumClassDims (fl : Floor1) : Nat :=
  (fl.partition_class_list.map (classDims fl.classes)).sum

/-- The engineered 92-byte floor input from the floor.rs unit test whose
x_list grows to 67 values. -/
def c4errBytes : List Nat :=
  [1, 0, 30, 0, 0, 0, 0, 0, 0, 0, 0, 0, 0, 0, 0, 34, 100, 38, 16, 40, 128,
   2, 3, 25, 0, 112, 128, 144, 32, 5, 0, 20, 22, 24, 58, 134, 139, 128, 128,
   92, 66, 70, 129, 65, 225, 152, 112, 78, 58, 109, 0, 0, 0, 0, 0, 0, 0, 0,
   0, 0, 0, 0, 0, 0, 0, 0, 0, 0, 0, 0, 0, 0, 0, 0, 0, 0, 0, 0, 0, 0, 0, 0,
   0, 0, 0, 0, 0, 0, 0, 0, 0, 0]

set_option maxRecDepth 8000 in
/-- C4: every successfully decoded Floor1 has an x_list of at most 65
values whose length is exactly 2 plus the sum of the dimensions of the
classes named by the partition class list, and the engineered input that
produces 67 values fails with the x-list-too-long error reporting 67. -/
theorem c4_xlist_invariant :
    (∀ (s : List Bool) (fl : Floor1) (s' : List Bool),
      Floor1.decode s = .ok (fl, s') →
      fl.x_list.length ≤ 65 ∧ fl.x_list.length = 2 + sumClassDims fl) ∧
    Floor.decode (bitsOfBytes c4errBytes) = .err (.xListTooLong 67) := by
  constructor
  · intro s fl s' h
    unfold Floor1.decode at h
    split at h
    · exact absurd h (by simp)
    · split at h
      · exact absurd h (by simp)
      · exact absurd h (by simp)
      · exact absurd h (by simp)
      · rename_i pcl s2 hpcl
        split at h
        · exact absurd h (by simp)
        · rename_i maximumClass hmax
          split at h
          · exact absurd h (by simp)
          · exact absurd h (by simp)
          · exact absurd h (by simp)
          · rename_i classes s3 hclasses
            split at h
            · exact absurd h (by simp)
            · split at h
              · exact absurd h (by simp)
              · split at h
                · exact absurd h (by simp)
                · exact absurd h (by simp)
                · exact absurd h (by simp)
                · rename_i xs s6 hxloop
                  split at h
                  · exact absurd h (by simp)
                  · rename_i hlen65
                    injection h with h1
                    injection h1 with h2 h3
                    subst h2
                    have hsum := xListLoop_ok pcl _ _ xs s6 hxloop
                    simp only [List.length_cons, List.length_nil] at hsum
                    dsimp only
                    refine ⟨by omega, ?_⟩
                    unfold sumClassDims
                    simpa using hsum
  · rfl

/-- The Frampton floor-configuration bytes from the floor.rs unit test. -/
def f38bytes : List Nat :=
  [1, 0, 6, 34, 100, 38, 16, 40, 128, 2, 3, 25, 0, 112, 128, 144, 32, 5, 0,
   20, 22, 24, 58, 134, 139, 128, 128, 92, 66, 70, 129, 65, 225, 152, 112,
   78, 58, 109]

/-- The Frampton floor stream after the 16-bit floor type tag. -/
def f38floorBits : List Bool := (bitsOfBytes f38bytes).drop 16

/-- The Floor1 decoded from the Frampton bytes (with a fallback record on
the impossible failure branches). -/
def c4fl : Floor1 :=
  match Floor1.decode f38floorBits with
  | .ok (fl, _) => fl
  | _ => { partitions := 0, partition_class_list := [], maximum_class := 0,
           classes := [], multiplier := 0, rangebits := 0, x_list := [] }

/-- The stream left over after decoding the Frampton Floor1. -/
def c4flRest : List Bool :=
  match Floor1.decode f38floorBits with
  | .ok (_, rest) => rest
  | _ => []

set_option maxRecDepth 8000 in
/-- C4 witness: the invariant applied to the Floor1 decoded from the
Frampton bytes, whose 19-element x_list satisfies both bounds. -/
theorem c4_xlist_invariant_witness :
    c4fl.x_list.length ≤ 65 ∧ c4fl.x_list.length = 2 + sumClassDims c4fl :=
  c4_xlist_invariant.1 f38floorBits c4fl c4flRest rfl

theorem usizeOfI32_eq_toNat {x : Int} (h0 : 0 ≤ x) (hlt : x < 2 ^ 64) :
    usizeOfI32 x = x.toNat := by
  unfold usizeOfI32
  rw [Int.emod_eq_of_lt h0 (by exact_mod_cast hlt)]

theorem range_map_getD (l : List Int) :
    (List.range l.length).map (fun i => l.getD i 0) = l := by
  apply List.ext_getElem
  · simp
  · intro i h1 h2
    simp [List.getD, List.getElem?_eq_getElem h2]

/-- One step of the rasterization recurrence. -/
theorem lineYAux_step (base sy ady adx : Int) (n : Nat) (y err : Int) :
    lineYAux base sy ady adx (n + 1) y err =
      lineYAux base sy ady adx n
        (if adx ≤ err + ady then y + sy else y + base)
        (if adx ≤ err + ady then err + ady - adx else err + ady) := by
  show (let err1 := err + ady
    if adx ≤ err1 then lineYAux base sy ady adx n (y + sy) (err1 - adx)
    else lineYAux base sy ady adx n (y + base) err1) = _
  by_cases hc : adx ≤ err + ady
  · simp only [hc, if_true]
  · simp only [hc, if_false]

/-- The render_line for loop writes the rasterization recurrence at the
positions x .. x+k-1 and leaves every other position unchanged, provided
adx is positive, ady and the error term stay inside [0, adx), adx has
i32 headroom, and the y values keep enough headroom (a budget of
|base| + 1 per remaining step) that no i32 addition overflows. -/
theorem renderLoop_ok {base sy ady adx : Int} (hadxp : 0 < adx)
    (hady0 : 0 ≤ ady) (hadya : ady < adx) (hadx31 : adx + adx ≤ 2 ^ 31)
    (hsyb : sy.natAbs ≤ base.natAbs + 1) :
    ∀ (k : Nat) (x y err : Int) (v : List Int),
      0 ≤ x → x.toNat + k ≤ v.length → x.toNat + k < 2 ^ 64 →
      0 ≤ err → err < adx →
      y.natAbs + k * (base.natAbs + 1) < 2 ^ 31 →
      renderLoop base sy ady adx k x y err v =
        .ok ((List.range v.length).map (fun i =>
          if x.toNat ≤ i ∧ i < x.toNat + k then
            lineYAux base sy ady adx (i - x.toNat + 1) y err
          else v.getD i 0)) := by
  intro k
  induction k with
  | zero =>
    intro x y err v hx hlen h64 herr0 herra hy31
    unfold renderLoop
    have : ∀ i ∈ List.range v.length,
        (if x.toNat ≤ i ∧ i < x.toNat + 0 then
          lineYAux base sy ady adx (i - x.toNat + 1) y err
        else v.getD i 0) = v.getD i 0 := by
      intro i hi
      have : ¬ (x.toNat ≤ i ∧ i < x.toNat + 0) := by omega
      simp [this]
    rw [List.map_congr_left this, range_map_getD]
  | succ k ih =>
    intro x y err v hx hlen h64 herr0 herra hy31
    unfold renderLoop
    have hxv : x.toNat < v.length := by omega
    have hx64 : x < 2 ^ 64 := by omega
    have husize : usizeOfI32 x = x.toNat := usizeOfI32_eq_toNat hx hx64
    have hchk1 : inI32 (err + ady) = true := by
      simp only [inI32, decide_eq_true_eq]
      omega
    have haddsy := Int.natAbs_add_le y sy
    have haddbase := Int.natAbs_add_le y base
    have hmul : (k + 1) * (base.natAbs + 1) =
        k * (base.natAbs + 1) + (base.natAbs + 1) := by ring
    have hy1abs : (if adx ≤ err + ady then y + sy else y + base).natAbs ≤
        y.natAbs + (base.natAbs + 1) := by
      by_cases hbr : adx ≤ err + ady
      · rw [if_pos hbr]; omega
      · rw [if_neg hbr]; omega
    have hchk2 : inI32 (if adx ≤ err + ady then y + sy else y + base) = true := by
      simp only [inI32, decide_eq_true_eq]
      omega
    have hset : setChecked v (usizeOfI32 x)
        (if adx ≤ err + ady then y + sy else y + base) =
        some (v.set x.toNat (if adx ≤ err + ady then y + sy else y + base)) := by
      unfold setChecked
      rw [husize, if_pos hxv]
    rw [if_pos hchk1]
    dsimp only
    rw [if_pos hchk2, hset]
    set y1 := if adx ≤ err + ady then y + sy else y + base with hy1
    set err2 := if adx ≤ err + ady then err + ady - adx else err + ady with herr2
    have herr2b : 0 ≤ err2 ∧ err2 < adx := by
      rw [herr2]
      by_cases hbr : adx ≤ err + ady
      · rw [if_pos hbr]
        constructor <;> omega
      · rw [if_neg hbr]
        constructor <;> omega
    have hy1_31 : y1.natAbs + k * (base.natAbs + 1) < 2 ^ 31 := by
      omega
    have hrec := ih (x + 1) y1 err2 (v.set x.toNat y1)
      (by omega)
      (by rw [List.length_set]; omega)
      (by omega)
      herr2b.1 herr2b.2 hy1_31
    have hx1 : (x + 1).toNat = x.toNat + 1 := by omega
    show renderLoop base sy ady adx k (x + 1) y1 err2 (v.set x.toNat y1) = _
    rw [hrec]
    congr 1
    rw [List.length_set]
    apply List.map_congr_left
    intro i hi
    have hiv : i < v.length := List.mem_range.mp hi
    rw [hx1]
    by_cases hcase1 : i = x.toNat
    · have hc1 : ¬ (x.toNat + 1 ≤ i ∧ i < x.toNat + 1 + k) := by omega
      have hc2 : x.toNat ≤ i ∧ i < x.toNat + (k + 1) := by omega
      simp only [hc1, if_false, hc2, if_true]
      have hone : i - x.toNat + 1 = 1 := by omega
      rw [hone, lineYAux_step, ← hy1, ← herr2]
      have hz : lineYAux base sy ady adx 0 y1 err2 = y1 := rfl
      rw [hz, hcase1, List.getD_eq_getElem?_getD, List.getElem?_set_self hxv]
      rfl
    · by_cases hcase2 : x.toNat + 1 ≤ i ∧ i < x.toNat + 1 + k
      · have hc2 : x.toNat ≤ i ∧ i < x.toNat + (k + 1) := by omega
        simp only [hcase2, if_true, hc2, and_self]
        have hn : i - x.toNat + 1 = (i - (x.toNat + 1) + 1) + 1 := by omega
        conv_rhs => rw [hn, lineYAux_step]
      · have hc2 : ¬ (x.toNat ≤ i ∧ i < x.toNat + (k + 1)) := by omega
        simp only [hcase2, if_false, hc2]
        rw [List.getD_eq_getElem?_getD, List.getD_eq_getElem?_getD,
          List.getElem?_set_ne (by omega)]

/-- C5 counterexample: on the line from (0,0) to (2,2) over the 3-element
buffer [9,9,9] the code leaves index x1 = 2 untouched (it stays 9, not
the rasterized value 2), so the filled range is exclusive of x1; at
x0 = x1 = 3, which the claimed precondition x0 ≤ x1 admits, the call
panics with an integer division by zero instead of filling anything; and
with extreme ordinates the i32 subtraction dy = y1 - y0 overflows and
panics (debug build) before anything is rasterized. -/
theorem c5_render_line_counterexample :
    render_line 0 0 2 2 [9, 9, 9] = .ok [0, 1, 9] ∧
    ([0, 1, 9] : List Int).getD 2 0 = 9 ∧
    render_line 3 7 3 9 [0, 0, 0, 0] = .panicked ∧
    render_line 0 (-(2 ^ 31)) 2 (2 ^ 31 - 1) [9, 9, 9] = .panicked := by
  exact ⟨rfl, rfl, rfl, rfl⟩

/-- C5 (amended): with 0 ≤ x0 < x1 (strictly; x0 = x1 divides by zero),
x1 within bounds, and coordinates small enough that no i32 arithmetic in
the routine overflows (x1 and the ordinate magnitudes at most 2^20,
comfortably covering every vorbis floor curve), render_line fills buffer
positions x0 up to but excluding x1 with the rasterized line, starting
at y0, and leaves the rest of the buffer untouched; the flat line and
simple line examples hold, and out-of-bounds endpoints (an empty buffer,
a negative x1) panic. -/
theorem c5_render_line_fills_exclusive :
    (∀ (x0 y0 x1 y1 : Int) (v : List Int),
      0 ≤ x0 → x0 < x1 → x1 ≤ 2 ^ 20 →
      y0.natAbs ≤ 2 ^ 20 → y1.natAbs ≤ 2 ^ 20 →
      x1.toNat ≤ v.length →
      render_line x0 y0 x1 y1 v = .ok (fillBres x0 y0 x1 y1 v)) ∧
    render_line 0 0 5 0 [0, 0, 0, 0, 0] = .ok [0, 0, 0, 0, 0] ∧
    render_line 0 0 5 5 [0, 0, 0, 0, 0] = .ok [0, 1, 2, 3, 4] ∧
    render_line 0 0 100 100 ([] : List Int) = .panicked ∧
    render_line 0 0 (-12) 0 (List.replicate 12 0) = .panicked := by
  refine ⟨?_, rfl, rfl, rfl, rfl⟩
  intro x0 y0 x1 y1 v h0 h01 h20 hy0 hy1 hlen
  have hu0 : usizeOfI32 x0 = x0.toNat := usizeOfI32_eq_toNat h0 (by omega)
  have hu1 : usizeOfI32 x1 = x1.toNat :=
    usizeOfI32_eq_toNat (by omega) (by omega)
  have hx01 : x0.toNat < x1.toNat := by omega
  have hx0v : x0.toNat < v.length := by omega
  have hdyabs : (y1 - y0).natAbs ≤ 2 ^ 21 := by omega
  have hbaseabs : (Int.tdiv (y1 - y0) (x1 - x0)).natAbs =
      (y1 - y0).natAbs / (x1 - x0).natAbs := Int.natAbs_tdiv _ _
  have hbase_le : (Int.tdiv (y1 - y0) (x1 - x0)).natAbs ≤
      (y1 - y0).natAbs := by
    rw [hbaseabs]; exact Nat.div_le_self _ _
  have hadxabs : ((x1 - x0).natAbs : Int) = x1 - x0 := by omega
  have hmulle : (y1 - y0).natAbs / (x1 - x0).natAbs * (x1 - x0).natAbs ≤
      (y1 - y0).natAbs := Nat.div_mul_le_self _ _
  have hcomm : (y1 - y0).natAbs / (x1 - x0).natAbs * (x1 - x0).natAbs =
      (x1 - x0).natAbs * ((y1 - y0).natAbs / (x1 - x0).natAbs) :=
    Nat.mul_comm _ _
  have hdm := Nat.div_add_mod (y1 - y0).natAbs (x1 - x0).natAbs
  have hmlt : (y1 - y0).natAbs % (x1 - x0).natAbs < (x1 - x0).natAbs :=
    Nat.mod_lt _ (by omega)
  have hcast : ((Int.tdiv (y1 - y0) (x1 - x0)).natAbs : Int) * (x1 - x0) =
      (((y1 - y0).natAbs / (x1 - x0).natAbs * (x1 - x0).natAbs : Nat) : Int) := by
    rw [hbaseabs]
    push_cast
    rw [abs_of_nonneg (by omega : (0 : Int) ≤ x1 - x0)]
  have hady0 : 0 ≤ ((y1 - y0).natAbs : Int) -
      ((Int.tdiv (y1 - y0) (x1 - x0)).natAbs : Int) * (x1 - x0) := by
    rw [hcast]
    omega
  have hadya : ((y1 - y0).natAbs : Int) -
      ((Int.tdiv (y1 - y0) (x1 - x0)).natAbs : Int) * (x1 - x0) <
      x1 - x0 := by
    rw [hcast]
    omega
  have hbneg : y1 - y0 < 0 → Int.tdiv (y1 - y0) (x1 - x0) ≤ 0 := by
    intro hneg
    have hnn : 0 ≤ Int.tdiv (-(y1 - y0)) (x1 - x0) :=
      Int.tdiv_nonneg (by omega) (by omega)
    rw [Int.neg_tdiv] at hnn
    omega
  have hbpos : 0 ≤ y1 - y0 → 0 ≤ Int.tdiv (y1 - y0) (x1 - x0) := fun hp =>
    Int.tdiv_nonneg hp (by omega)
  have hsyabs : (if y1 - y0 < 0 then Int.tdiv (y1 - y0) (x1 - x0) - 1
      else Int.tdiv (y1 - y0) (x1 - x0) + 1).natAbs ≤
      (Int.tdiv (y1 - y0) (x1 - x0)).natAbs + 1 := by
    by_cases hneg : y1 - y0 < 0
    · rw [if_pos hneg]
      have := hbneg hneg
      omega
    · rw [if_neg hneg]
      have := hbpos (by omega)
      omega
  have hdy32 : inI32 (y1 - y0) = true := by
    simp only [inI32, decide_eq_true_eq]
    omega
  have hsy32 : inI32 (if y1 - y0 < 0 then Int.tdiv (y1 - y0) (x1 - x0) - 1
      else Int.tdiv (y1 - y0) (x1 - x0) + 1) = true := by
    simp only [inI32, decide_eq_true_eq]
    omega
  have hybound : y0.natAbs + (x1 - (x0 + 1)).toNat *
      ((Int.tdiv (y1 - y0) (x1 - x0)).natAbs + 1) < 2 ^ 31 := by
    have hkb : (x1 - (x0 + 1)).toNat ≤ (x1 - x0).natAbs := by omega
    have hm1 : (x1 - (x0 + 1)).toNat *
        ((Int.tdiv (y1 - y0) (x1 - x0)).natAbs + 1) ≤
        (x1 - x0).natAbs * ((Int.tdiv (y1 - y0) (x1 - x0)).natAbs + 1) :=
      Nat.mul_le_mul_right _ hkb
    have hm2 : (x1 - x0).natAbs *
        ((Int.tdiv (y1 - y0) (x1 - x0)).natAbs + 1) =
        (x1 - x0).natAbs * (Int.tdiv (y1 - y0) (x1 - x0)).natAbs +
        (x1 - x0).natAbs := by ring
    have hm3 : (x1 - x0).natAbs * (Int.tdiv (y1 - y0) (x1 - x0)).natAbs ≤
        (y1 - y0).natAbs := by
      rw [hbaseabs, Nat.mul_comm]
      exact Nat.div_mul_le_self _ _
    omega
  unfold render_line
  rw [if_pos (le_of_lt h01)]
  rw [hu0, hu1, if_pos (by omega : x0.toNat ≤ v.length), if_pos hlen]
  rw [if_pos hdy32]
  dsimp only
  rw [if_neg (by omega : ¬ (x1 - x0 = 0))]
  rw [if_pos hsy32]
  rw [if_neg (by omega : ¬ (y1 - y0 = -(2 ^ 31)))]
  rw [show setChecked v x0.toNat y0 = some (v.set x0.toNat y0) from by
    unfold setChecked; rw [if_pos hx0v]]
  show renderLoop (Int.tdiv (y1 - y0) (x1 - x0))
      (if y1 - y0 < 0 then Int.tdiv (y1 - y0) (x1 - x0) - 1
        else Int.tdiv (y1 - y0) (x1 - x0) + 1)
      (((y1 - y0).natAbs : Int) -
        ((Int.tdiv (y1 - y0) (x1 - x0)).natAbs : Int) * (x1 - x0))
      (x1 - x0) (x1 - (x0 + 1)).toNat (x0 + 1) y0 0 (v.set x0.toNat y0) = _
  rw [renderLoop_ok (by omega) hady0 hadya (by omega) hsyabs
    (x1 - (x0 + 1)).toNat (x0 + 1) y0 0 (v.set x0.toNat y0)
    (by omega) (by rw [List.length_set]; omega) (by omega)
    (by omega) (by omega) hybound]
  congr 1
  rw [List.length_set]
  unfold fillBres
  apply List.map_congr_left
  intro i hi
  have hiv : i < v.length := List.mem_range.mp hi
  have hk : (x0 + 1).toNat + (x1 - (x0 + 1)).toNat = x1.toNat := by omega
  by_cases hcase1 : i = x0.toNat
  · have hc1 : ¬ ((x0 + 1).toNat ≤ i ∧ i < (x0 + 1).toNat +
        (x1 - (x0 + 1)).toNat) := by omega
    have hc2 : x0.toNat ≤ i ∧ i < x1.toNat := by omega
    rw [if_neg hc1, if_pos hc2, if_pos hcase1, hcase1]
    rw [List.getD_eq_getElem?_getD, List.getElem?_set_self hx0v]
    rfl
  · by_cases hcase2 : (x0 + 1).toNat ≤ i ∧ i < (x0 + 1).toNat +
        (x1 - (x0 + 1)).toNat
    · have hc2 : x0.toNat ≤ i ∧ i < x1.toNat := by omega
      rw [if_pos hcase2, if_pos hc2, if_neg hcase1]
      rw [show i - (x0 + 1).toNat + 1 = i - x0.toNat from by omega]
      unfold lineY
      dsimp only
    · have hc2 : ¬ (x0.toNat ≤ i ∧ i < x1.toNat) := by omega
      rw [if_neg hcase2, if_neg hc2]
      rw [List.getD_eq_getElem?_getD, List.getD_eq_getElem?_getD,
        List.getElem?_set_ne (by omega)]

/-- C5 witness: the amended theorem applied to the concrete line from
(0,0) to (2,2) over a 3-element buffer. -/
theorem c5_render_line_fills_exclusive_witness :
    render_line 0 0 2 2 [9, 9, 9] = .ok (fillBres 0 0 2 2 [9, 9, 9]) :=
  c5_render_line_fills_exclusive.1 0 0 2 2 [9, 9, 9] (by decide) (by decide)
    (by decide) (by decide) (by decide) (by decide)

/-- The symbol at a node itself (none for an absent node or an internal
node). -/
def rootSym : HTree → Option Nat
  | .empty => none
  | .node _ _ v => v

/-- Every node carrying a symbol is childless: the invariant the claim
states for trees built by add_node. -/
def childlessLeavesB : HTree → Bool
  | .empty => true
  | .node l r v =>
    (v.isNone || (decide (l = HTree.empty) && decide (r = HTree.empty))) &&
      childlessLeavesB l && childlessLeavesB r

/-- The root-to-node path (false = left, true = right) and symbol of every
symbol-bearing node, in depth-first left-to-right order. -/
def symPaths : HTree → List (List Bool × Nat)
  | .empty => []
  | .node l r v =>
    (match v with | some s => [(([] : List Bool), s)] | none => []) ++
    (symPaths l).map (fun p => (false :: p.1, p.2)) ++
    (symPaths r).map (fun p => (true :: p.1, p.2))

/-- p is an initial segment of q. -/
def pathExtends (p q : List Bool) : Prop := ∃ r, q = p ++ r

/-- The child of a node in the given direction (false = left). -/
def childOf : HTree → Bool → HTree
  | .empty, _ => .empty
  | .node l _ _, false => l
  | .node _ r _, true => r

/-- The path leads to a slot where add_node could place a symbol: each
existing node passed through deeper than the first level is not a leaf,
and the final position holds no node yet; once the path steps into an
absent child everything below is creatable. -/
def slotFreeB (t : HTree) : List Bool → Bool
  | [] => false
  | b :: rest =>
    match rest with
    | [] => decide (childOf t b = HTree.empty)
    | _ =>
      match childOf t b with
      | .empty => true
      | c => !c.isLeafB && slotFreeB c rest

/-- Lexicographic comparison of equal-length paths with left (false)
before right (true): the traversal order of add_node. -/
def lexLeB : List Bool → List Bool → Bool
  | [], _ => true
  | _ :: _, [] => true
  | a :: p, b :: q => (!a && b) || ((a == b) && lexLeB p q)

/-- The path add_node would choose: the same traversal as add_node, but
only computing the path. -/
def insPath : Nat → HTree → Option (List Bool)
  | 1, .node l r _ =>
    match l with
    | .empty => some [false]
    | _ =>
      match r with
      | .empty => some [true]
      | _ => none
  | len + 2, .node l r _ =>
    let l' := match l with | .empty => HTree.fresh | t => t
    match (if l'.isLeafB then none else insPath (len + 1) l') with
    | some p => some (false :: p)
    | none =>
      let r' := match r with | .empty => HTree.fresh | t => t
      match (if r'.isLeafB then none else insPath (len + 1) r') with
      | some p => some (true :: p)
      | none => none
  | _, _ => none

/-- Place a symbol at the end of a path, creating the internal nodes an
absent subtree needs on the way down. -/
def place : HTree → List Bool → Nat → HTree
  | _, [], x => HTree.node .empty .empty (some x)
  | .empty, b :: rest, x =>
    if b then .node .empty (place .empty rest x) none
    else .node (place .empty rest x) .empty none
  | .node l r v, b :: rest, x =>
    if b then .node l (place r rest x) v
    else .node (place l rest x) r v

/-- Placing into an absent child and placing into a freshly created empty
node build the same subtree. -/
theorem place_empty_eq_fresh : ∀ (p : List Bool) (x : Nat),
    place HTree.empty p x = place HTree.fresh p x := by
  intro p x
  cases p with
  | nil => rfl
  | cons b rest =>
    cases b <;> rfl

/-- On a fresh node the traversal always finds the all-left path. -/
theorem insPath_fresh : ∀ n : Nat,
    insPath (n + 1) HTree.fresh = some (List.replicate (n + 1) false) := by
  intro n
  induction n with
  | zero => rfl
  | succ m ih =>
    show insPath (m + 2) HTree.fresh = _
    unfold insPath
    show (match (if HTree.fresh.isLeafB then none
        else insPath (m + 1) HTree.fresh) with
      | some p => some (false :: p)
      | none =>
        match (if HTree.fresh.isLeafB then none
            else insPath (m + 1) HTree.fresh) with
        | some p => some (true :: p)
        | none => none) = _
    rw [show HTree.fresh.isLeafB = false from rfl]
    simp only [Bool.false_eq_true, if_false, ih]
    rfl

/-- Normalizing an absent child to a fresh node does not change where a
symbol ends up. -/
theorem place_childNorm : ∀ (l : HTree) (p : List Bool) (x : Nat),
    place l p x =
      place (match l with | .empty => HTree.fresh | t => t) p x := by
  intro l p x
  cases l with
  | empty => exact place_empty_eq_fresh p x
  | node ll lr lv => rfl

/-- add_node is exactly: find the first free slot at the target depth in
left-first traversal order, and place the symbol there. -/
theorem addNode_eq : ∀ (n : Nat) (t : HTree) (x : Nat),
    addNode (n + 1) t x = (insPath (n + 1) t).map (fun p => place t p x) := by
  intro n
  induction n with
  | zero =>
    intro t x
    cases t with
    | empty => rfl
    | node l r v =>
      cases l with
      | empty => rfl
      | node ll lr lv =>
        cases r with
        | empty => rfl
        | node rl rr rv => rfl
  | succ m ih =>
    intro t x
    cases t with
    | empty => rfl
    | node l r v =>
      show addNode (m + 2) (.node l r v) x = _
      unfold addNode insPath
      dsimp only
      rw [ih, ih]
      simp only [← place_childNorm]
      cases l with
      | empty =>
        dsimp only
        rw [insPath_fresh m]
        simp only [show HTree.fresh.isLeafB = false from rfl,
          Bool.false_eq_true, if_false, Option.map_some']
        rfl
      | node ll lr lv =>
        dsimp only
        by_cases hc1 : (HTree.node ll lr lv).isLeafB = true
        · simp only [hc1, if_true]
          cases r with
          | empty =>
            dsimp only
            rw [insPath_fresh m]
            simp only [show HTree.fresh.isLeafB = false from rfl,
              Bool.false_eq_true, if_false, Option.map_some']
            rfl
          | node rl rr rv =>
            dsimp only
            by_cases hc2 : (HTree.node rl rr rv).isLeafB = true
            · simp only [hc2, if_true]
              rfl
            · rw [Bool.not_eq_true] at hc2
              simp only [hc2, Bool.false_eq_true, if_false]
              cases hr : insPath (m + 1) (HTree.node rl rr rv) with
              | none => simp [hr]
              | some p => simp [hr]; rfl
        · rw [Bool.not_eq_true] at hc1
          simp only [hc1, Bool.false_eq_true, if_false]
          cases hl : insPath (m + 1) (HTree.node ll lr lv) with
          | some p => simp [hl]; rfl
          | none =>
            simp only [hl, Option.map_none']
            cases r with
            | empty =>
              dsimp only
              rw [insPath_fresh m]
              simp only [show HTree.fresh.isLeafB = false from rfl,
                Bool.false_eq_true, if_false, Option.map_some']
              rfl
            | node rl rr rv =>
              dsimp only
              by_cases hc2 : (HTree.node rl rr rv).isLeafB = true
              · simp only [hc2, if_true]
                rfl
              · rw [Bool.not_eq_true] at hc2
                simp only [hc2, Bool.false_eq_true, if_false]
                cases hr : insPath (m + 1) (HTree.node rl rr rv) with
                | none => simp [hr]
                | some p => simp [hr]; rfl

/-- The all-left path is lexicographically least. -/
theorem lexLe_replicate_false : ∀ (n : Nat) (q : List Bool),
    lexLeB (List.replicate n false) q = true := by
  intro n
  induction n with
  | zero => intro q; rfl
  | succ m ih =>
    intro q
    cases q with
    | nil => rfl
    | cons b q' =>
      show lexLeB (false :: List.replicate m false) (b :: q') = true
      unfold lexLeB
      cases b with
      | false => simp [ih q']
      | true => simp

/-- A path the traversal returns has the target length and leads to a
free slot. -/
theorem insPath_spec : ∀ (n : Nat) (t : HTree) (p : List Bool),
    insPath (n + 1) t = some p →
    p.length = n + 1 ∧ slotFreeB t p = true := by
  intro n
  induction n with
  | zero =>
    intro t p h
    cases t with
    | empty => exact absurd h (by simp [insPath])
    | node l r v =>
      cases l with
      | empty =>
        injection h with h1
        subst h1
        exact ⟨rfl, by simp [slotFreeB, childOf]⟩
      | node ll lr lv =>
        cases r with
        | empty =>
          injection h with h1
          subst h1
          exact ⟨rfl, by simp [slotFreeB, childOf]⟩
        | node rl rr rv => exact absurd h (by simp [insPath])
  | succ m ih =>
    intro t p h
    cases t with
    | empty => exact absurd h (by simp [insPath])
    | node l r v =>
      have hstep : ∀ (c : HTree) (b : Bool) (p' : List Bool),
          childOf (HTree.node l r v) b = c →
          c.isLeafB = false → p'.length = m + 1 → slotFreeB c p' = true →
          slotFreeB (HTree.node l r v) (b :: p') = true := by
        intro c b p' hc hleaf hlen hfree
        cases p' with
        | nil => simp at hlen
        | cons pb rest =>
          show slotFreeB (HTree.node l r v) (b :: pb :: rest) = true
          unfold slotFreeB
          rw [hc]
          cases c with
          | empty => rfl
          | node cl cr cv =>
            simp only [HTree.isLeafB] at hleaf
            simp [HTree.isLeafB, hleaf, hfree]
      unfold insPath at h
      dsimp only at h
      cases l with
      | empty =>
        dsimp only at h
        rw [insPath_fresh m] at h
        simp only [show HTree.fresh.isLeafB = false from rfl,
          Bool.false_eq_true, if_false] at h
        injection h with h1
        subst h1
        refine ⟨by simp, ?_⟩
        cases hrep : List.replicate (m + 1) false with
        | nil => simp at hrep
        | cons b rest =>
          have hb : b = false := by
            have := List.eq_of_mem_replicate (hrep ▸ List.mem_cons_self b rest)
            exact this
          show slotFreeB (HTree.node HTree.empty r v) (false :: b :: rest) = true
          unfold slotFreeB
          simp [childOf]
      | node ll lr lv =>
        by_cases hc1 : (HTree.node ll lr lv).isLeafB = true
        · simp only [hc1, if_true] at h
          -- the left branch is skipped; the right branch produced p
          cases r with
          | empty =>
            dsimp only at h
            rw [insPath_fresh m] at h
            simp only [show HTree.fresh.isLeafB = false from rfl,
              Bool.false_eq_true, if_false] at h
            injection h with h1
            subst h1
            refine ⟨by simp, ?_⟩
            cases hrep : List.replicate (m + 1) false with
            | nil => simp at hrep
            | cons b rest =>
              show slotFreeB (HTree.node (HTree.node ll lr lv) HTree.empty v)
                  (true :: b :: rest) = true
              unfold slotFreeB
              simp [childOf]
          | node rl rr rv =>
            by_cases hc2 : (HTree.node rl rr rv).isLeafB = true
            · simp only [hc2, if_true] at h
              exact absurd h (by simp)
            · rw [Bool.not_eq_true] at hc2
              simp only [hc2, Bool.false_eq_true, if_false] at h
              cases hr : insPath (m + 1) (HTree.node rl rr rv) with
              | none => rw [hr] at h; exact absurd h (by simp)
              | some p' =>
                rw [hr] at h
                injection h with h1
                subst h1
                have hih := ih (HTree.node rl rr rv) p' hr
                exact ⟨by simp [hih.1],
                  hstep (HTree.node rl rr rv) true p' rfl hc2 hih.1 hih.2⟩
        · rw [Bool.not_eq_true] at hc1
          simp only [hc1, Bool.false_eq_true, if_false] at h
          cases hl : insPath (m + 1) (HTree.node ll lr lv) with
          | some p' =>
            rw [hl] at h
            injection h with h1
            subst h1
            have hih := ih (HTree.node ll lr lv) p' hl
            exact ⟨by simp [hih.1],
              hstep (HTree.node ll lr lv) false p' rfl hc1 hih.1 hih.2⟩
          | none =>
            rw [hl] at h
            dsimp only at h
            cases r with
            | empty =>
              dsimp only at h
              rw [insPath_fresh m] at h
              simp only [show HTree.fresh.isLeafB = false from rfl,
                Bool.false_eq_true, if_false] at h
              injection h with h1
              subst h1
              refine ⟨by simp, ?_⟩
              cases hrep : List.replicate (m + 1) false with
              | nil => simp at hrep
              | cons b rest =>
                show slotFreeB (HTree.node (HTree.node ll lr lv) HTree.empty v)
                    (true :: b :: rest) = true
                unfold slotFreeB
                simp [childOf]
            | node rl rr rv =>
              by_cases hc2 : (HTree.node rl rr rv).isLeafB = true
              · simp only [hc2, if_true] at h
                exact absurd h (by simp)
              · rw [Bool.not_eq_true] at hc2
                simp only [hc2, Bool.false_eq_true, if_false] at h
                cases hr : insPath (m + 1) (HTree.node rl rr rv) with
                | none => rw [hr] at h; exact absurd h (by simp)
                | some p' =>
                  rw [hr] at h
                  injection h with h1
                  subst h1
                  have hih := ih (HTree.node rl rr rv) p' hr
                  exact ⟨by simp [hih.1],
                    hstep (HTree.node rl rr rv) true p' rfl hc2 hih.1 hih.2⟩

/-- When the traversal fails there is no free slot at the target depth. -/
theorem insPath_none : ∀ (n : Nat) (l r : HTree) (v : Option Nat),
    insPath (n + 1) (HTree.node l r v) = none →
    ∀ q : List Bool, q.length = n + 1 →
      slotFreeB (HTree.node l r v) q = false := by
  intro n
  induction n with
  | zero =>
    intro l r v h q hq
    cases l with
    | empty => exact absurd h (by simp [insPath])
    | node ll lr lv =>
      cases r with
      | empty => exact absurd h (by simp [insPath])
      | node rl rr rv =>
        cases q with
        | nil => simp at hq
        | cons b rest =>
          cases rest with
          | nil =>
            cases b <;> simp [slotFreeB, childOf]
          | cons c rest2 => simp at hq
  | succ m ih =>
    intro l r v h q hq
    obtain ⟨b, q', hqeq⟩ : ∃ b q', q = b :: q' := by
      cases q with
      | nil => simp at hq
      | cons b q' => exact ⟨b, q', rfl⟩
    subst hqeq
    have hq' : q'.length = m + 1 := by simpa using hq
    obtain ⟨pb, rest, hq2⟩ : ∃ pb rest, q' = pb :: rest := by
      cases q' with
      | nil => simp at hq'
      | cons pb rest => exact ⟨pb, rest, rfl⟩
    subst hq2
    unfold insPath at h
    dsimp only at h
    cases l with
    | empty =>
      dsimp only at h
      rw [insPath_fresh m] at h
      simp only [show HTree.fresh.isLeafB = false from rfl,
        Bool.false_eq_true, if_false] at h
      exact absurd h (by simp)
    | node ll lr lv =>
      cases r with
      | empty =>
        exfalso
        by_cases hc1 : (HTree.node ll lr lv).isLeafB = true
        · simp only [hc1, if_true] at h
          try dsimp only at h
          rw [insPath_fresh m] at h
          simp only [show HTree.fresh.isLeafB = false from rfl,
            Bool.false_eq_true, if_false] at h
          exact absurd h (by simp)
        · rw [Bool.not_eq_true] at hc1
          simp only [hc1, Bool.false_eq_true, if_false] at h
          cases hl : insPath (m + 1) (HTree.node ll lr lv) with
          | some pp => rw [hl] at h; exact absurd h (by simp)
          | none =>
            rw [hl] at h
            dsimp only at h
            rw [insPath_fresh m] at h
            simp only [show HTree.fresh.isLeafB = false from rfl,
              Bool.false_eq_true, if_false] at h
            exact absurd h (by simp)
      | node rl rr rv =>
        have hleft : (HTree.node ll lr lv).isLeafB = true ∨
            insPath (m + 1) (HTree.node ll lr lv) = none := by
          by_cases hc1 : (HTree.node ll lr lv).isLeafB = true
          · exact Or.inl hc1
          · rw [Bool.not_eq_true] at hc1
            simp only [hc1, Bool.false_eq_true, if_false] at h
            cases hl : insPath (m + 1) (HTree.node ll lr lv) with
            | some pp => rw [hl] at h; exact absurd h (by simp)
            | none => exact Or.inr rfl
        have hright : (HTree.node rl rr rv).isLeafB = true ∨
            insPath (m + 1) (HTree.node rl rr rv) = none := by
          by_cases hc2 : (HTree.node rl rr rv).isLeafB = true
          · exact Or.inl hc2
          · rw [Bool.not_eq_true] at hc2
            by_cases hc1 : (HTree.node ll lr lv).isLeafB = true
            · simp only [hc1, if_true, hc2, Bool.false_eq_true,
                if_false] at h
              cases hr : insPath (m + 1) (HTree.node rl rr rv) with
              | some pp => rw [hr] at h; exact absurd h (by simp)
              | none => exact Or.inr rfl
            · rw [Bool.not_eq_true] at hc1
              simp only [hc1, hc2, Bool.false_eq_true, if_false] at h
              cases hl : insPath (m + 1) (HTree.node ll lr lv) with
              | some pp => rw [hl] at h; exact absurd h (by simp)
              | none =>
                rw [hl] at h
                try dsimp only at h
                cases hr : insPath (m + 1) (HTree.node rl rr rv) with
                | some pp => rw [hr] at h; exact absurd h (by simp)
                | none => exact Or.inr rfl
        cases b with
        | false =>
          show slotFreeB (HTree.node (HTree.node ll lr lv)
              (HTree.node rl rr rv) v) (false :: pb :: rest) = false
          unfold slotFreeB
          dsimp only [childOf]
          rcases hleft with hlf | hln
          · simp [hlf]
          · rw [ih ll lr lv hln (pb :: rest) hq']
            simp
        | true =>
          show slotFreeB (HTree.node (HTree.node ll lr lv)
              (HTree.node rl rr rv) v) (true :: pb :: rest) = false
          unfold slotFreeB
          dsimp only [childOf]
          rcases hright with hrf | hrn
          · simp [hrf]
          · rw [ih rl rr rv hrn (pb :: rest) hq']
            simp

/-- The traversal's path is lexicographically least among the free slots
at the target depth: left subtrees are exhausted before right ones. -/
theorem insPath_min : ∀ (n : Nat) (t : HTree) (p : List Bool),
    insPath (n + 1) t = some p →
    ∀ q : List Bool, q.length = n + 1 → slotFreeB t q = true →
    lexLeB p q = true := by
  intro n
  induction n with
  | zero =>
    intro t p h q hq hfree
    cases t with
    | empty => exact absurd h (by simp [insPath])
    | node l r v =>
      obtain ⟨b, q', hqeq⟩ : ∃ b q', q = b :: q' := by
        cases q with
        | nil => simp at hq
        | cons b q' => exact ⟨b, q', rfl⟩
      subst hqeq
      have hq' : q' = [] := by
        cases q' with
        | nil => rfl
        | cons c rest => simp at hq
      subst hq'
      cases l with
      | empty =>
        injection h with h1
        subst h1
        cases b <;> rfl
      | node ll lr lv =>
        cases r with
        | empty =>
          injection h with h1
          subst h1
          cases b with
          | false => simp [slotFreeB, childOf] at hfree
          | true => rfl
        | node rl rr rv => exact absurd h (by simp [insPath])
  | succ m ih =>
    intro t p h q hq hfree
    cases t with
    | empty => exact absurd h (by simp [insPath])
    | node l r v =>
      obtain ⟨b, q', hqeq⟩ : ∃ b q', q = b :: q' := by
        cases q with
        | nil => simp at hq
        | cons b q' => exact ⟨b, q', rfl⟩
      subst hqeq
      have hq' : q'.length = m + 1 := by simpa using hq
      obtain ⟨pb, rest, hq2⟩ : ∃ pb rest, q' = pb :: rest := by
        cases q' with
        | nil => simp at hq'
        | cons pb rest => exact ⟨pb, rest, rfl⟩
      subst hq2
      unfold insPath at h
      dsimp only at h
      cases l with
      | empty =>
        dsimp only at h
        rw [insPath_fresh m] at h
        simp only [show HTree.fresh.isLeafB = false from rfl,
          Bool.false_eq_true, if_false] at h
        injection h with h1
        subst h1
        cases b with
        | false =>
          show lexLeB (false :: List.replicate (m + 1) false)
              (false :: pb :: rest) = true
          unfold lexLeB
          simp [lexLe_replicate_false]
        | true => rfl
      | node ll lr lv =>
        have hRight : ∀ p', p = true :: p' →
            ((r = HTree.empty ∧ p' = List.replicate (m + 1) false) ∨
              insPath (m + 1) r = some p') → lexLeB p (b :: pb :: rest) = true := by
          intro p' hp hcase
          subst hp
          cases b with
          | false =>
            exfalso
            have : slotFreeB (HTree.node (HTree.node ll lr lv) r v)
                (false :: pb :: rest) =
                (!(HTree.node ll lr lv).isLeafB &&
                  slotFreeB (HTree.node ll lr lv) (pb :: rest)) := by
              unfold slotFreeB
              dsimp only [childOf]
              rfl
            rw [this] at hfree
            rw [Bool.and_eq_true] at hfree
            -- the left child is a leaf or has no free slot; both refute hfree
            by_cases hc1 : (HTree.node ll lr lv).isLeafB = true
            · rw [hc1] at hfree
              simp at hfree
            · rw [Bool.not_eq_true] at hc1
              simp only [hc1, Bool.false_eq_true, if_false] at h
              cases hl : insPath (m + 1) (HTree.node ll lr lv) with
              | some pp => rw [hl] at h; simp at h
              | none =>
                rw [insPath_none m ll lr lv hl (pb :: rest) hq'] at hfree
                simp at hfree
          | true =>
            show lexLeB (true :: p') (true :: pb :: rest) = true
            unfold lexLeB
            simp only [Bool.not_true, Bool.false_and, Bool.true_and,
              Bool.false_or, beq_self_eq_true, Bool.true_and]
            rcases hcase with ⟨hre, hrep⟩ | hrs
            · subst hrep
              exact lexLe_replicate_false (m + 1) (pb :: rest)
            · cases r with
              | empty => exact absurd hrs (by simp [insPath])
              | node rl rr rv =>
                have hfree2 : slotFreeB (HTree.node rl rr rv)
                    (pb :: rest) = true := by
                  have : slotFreeB (HTree.node (HTree.node ll lr lv)
                      (HTree.node rl rr rv) v) (true :: pb :: rest) =
                      (!(HTree.node rl rr rv).isLeafB &&
                        slotFreeB (HTree.node rl rr rv) (pb :: rest)) := by
                    unfold slotFreeB
                    dsimp only [childOf]
                    rfl
                  rw [this, Bool.and_eq_true] at hfree
                  exact hfree.2
                exact ih (HTree.node rl rr rv) p' hrs (pb :: rest) hq' hfree2
        by_cases hc1 : (HTree.node ll lr lv).isLeafB = true
        · simp only [hc1, if_true] at h
          cases r with
          | empty =>
            dsimp only at h
            rw [insPath_fresh m] at h
            simp only [show HTree.fresh.isLeafB = false from rfl,
              Bool.false_eq_true, if_false] at h
            injection h with h1
            exact hRight (List.replicate (m + 1) false) h1.symm
              (Or.inl ⟨rfl, rfl⟩)
          | node rl rr rv =>
            by_cases hc2 : (HTree.node rl rr rv).isLeafB = true
            · simp only [hc2, if_true] at h
              exact absurd h (by simp)
            · rw [Bool.not_eq_true] at hc2
              simp only [hc2, Bool.false_eq_true, if_false] at h
              cases hr : insPath (m + 1) (HTree.node rl rr rv) with
              | none => rw [hr] at h; exact absurd h (by simp)
              | some p' =>
                rw [hr] at h
                injection h with h1
                exact hRight p' h1.symm (Or.inr hr)
        · rw [Bool.not_eq_true] at hc1
          simp only [hc1, Bool.false_eq_true, if_false] at h
          cases hl : insPath (m + 1) (HTree.node ll lr lv) with
          | some p' =>
            rw [hl] at h
            injection h with h1
            subst h1
            cases b with
            | false =>
              show lexLeB (false :: p') (false :: pb :: rest) = true
              unfold lexLeB
              simp only [Bool.not_false, Bool.true_and, Bool.and_false,
                beq_self_eq_true, Bool.true_and, Bool.false_or]
              have hfree2 : slotFreeB (HTree.node ll lr lv)
                  (pb :: rest) = true := by
                have : slotFreeB (HTree.node (HTree.node ll lr lv) r v)
                    (false :: pb :: rest) =
                    (!(HTree.node ll lr lv).isLeafB &&
                      slotFreeB (HTree.node ll lr lv) (pb :: rest)) := by
                  unfold slotFreeB
                  dsimp only [childOf]
                  rfl
                rw [this, Bool.and_eq_true] at hfree
                exact hfree.2
              have := ih (HTree.node ll lr lv) p' hl (pb :: rest) hq' hfree2
              simp [this]
            | true => rfl
          | none =>
            rw [hl] at h
            try dsimp only at h
            cases r with
            | empty =>
              dsimp only at h
              rw [insPath_fresh m] at h
              simp only [show HTree.fresh.isLeafB = false from rfl,
                Bool.false_eq_true, if_false] at h
              injection h with h1
              exact hRight (List.replicate (m + 1) false) h1.symm
                (Or.inl ⟨rfl, rfl⟩)
            | node rl rr rv =>
              by_cases hc2 : (HTree.node rl rr rv).isLeafB = true
              · simp only [hc2, if_true] at h
                exact absurd h (by simp)
              · rw [Bool.not_eq_true] at hc2
                simp only [hc2, Bool.false_eq_true, if_false] at h
                cases hr : insPath (m + 1) (HTree.node rl rr rv) with
                | none => rw [hr] at h; exact absurd h (by simp)
                | some p' =>
                  rw [hr] at h
                  injection h with h1
                  exact hRight p' h1.symm (Or.inr hr)

/-- Placing into an absent subtree creates exactly one symbol-bearing
node, at the given path. -/
theorem symPaths_place_empty : ∀ (p : List Bool) (x : Nat),
    symPaths (place HTree.empty p x) = [(p, x)] := by
  intro p
  induction p with
  | nil => intro x; rfl
  | cons b rest ih =>
    intro x
    cases b with
    | false =>
      show symPaths (.node (place HTree.empty rest x) HTree.empty none) = _
      simp [symPaths, ih x]
    | true =>
      show symPaths (.node HTree.empty (place HTree.empty rest x) none) = _
      simp [symPaths, ih x]

/-- A subtree grown from an absent child keeps every symbol childless. -/
theorem childless_place_empty : ∀ (p : List Bool) (x : Nat),
    childlessLeavesB (place HTree.empty p x) = true := by
  intro p
  induction p with
  | nil => intro x; rfl
  | cons b rest ih =>
    intro x
    cases b with
    | false =>
      show childlessLeavesB
        (.node (place HTree.empty rest x) HTree.empty none) = true
      simp [childlessLeavesB, ih x]
    | true =>
      show childlessLeavesB
        (.node HTree.empty (place HTree.empty rest x) none) = true
      simp [childlessLeavesB, ih x]

/-- Placing a symbol below a node does not change the node's own symbol. -/
theorem rootSym_place (l r : HTree) (v : Option Nat) (b : Bool)
    (rest : List Bool) (x : Nat) :
    rootSym (place (HTree.node l r v) (b :: rest) x) = v := by
  cases b <;> rfl

/-- Placing a symbol into a free slot keeps every symbol childless,
provided the root carries no symbol. -/
theorem childless_place : ∀ (p : List Bool) (t : HTree) (x : Nat),
    slotFreeB t p = true → rootSym t = none → childlessLeavesB t = true →
    childlessLeavesB (place t p x) = true := by
  intro p
  induction p with
  | nil =>
    intro t x hfree hroot hcl
    simp [slotFreeB] at hfree
  | cons b rest ih =>
    intro t x hfree hroot hcl
    cases t with
    | empty => exact childless_place_empty (b :: rest) x
    | node l r v =>
      have hv : v = none := hroot
      subst hv
      have hcll : childlessLeavesB l = true ∧ childlessLeavesB r = true := by
        unfold childlessLeavesB at hcl
        simp only [Bool.and_eq_true] at hcl
        exact ⟨hcl.1.2, hcl.2⟩
      have hchild : ∀ c : HTree, childOf (HTree.node l r none) b = c →
          childlessLeavesB c = true → childlessLeavesB (place c rest x) = true := by
        intro c hc hclc
        cases hrest : rest with
        | nil =>
          have hfree2 : childOf (HTree.node l r none) b = HTree.empty := by
            rw [hrest] at hfree
            unfold slotFreeB at hfree
            simpa using hfree
          rw [hc] at hfree2
          subst hfree2
          exact childless_place_empty [] x
        | cons c2 rest2 =>
          rw [← hrest]
          cases c with
          | empty => exact childless_place_empty rest x
          | node cl cr cv =>
            have hfree2 : (!(HTree.node cl cr cv).isLeafB &&
                slotFreeB (HTree.node cl cr cv) rest) = true := by
              rw [hrest] at hfree
              unfold slotFreeB at hfree
              rw [hc] at hfree
              rw [hrest]
              simpa using hfree
            rw [Bool.and_eq_true] at hfree2
            have hcv : cv = none := by
              have := hfree2.1
              simp [HTree.isLeafB, Option.isSome] at this
              cases cv with
              | none => rfl
              | some s => simp at this
            subst hcv
            exact ih (HTree.node cl cr none) x hfree2.2 rfl hclc
      cases b with
      | false =>
        show childlessLeavesB (HTree.node (place l rest x) r none) = true
        unfold childlessLeavesB
        simp only [Option.isNone_none, Bool.true_or, Bool.true_and,
          Bool.and_eq_true]
        exact ⟨by simpa using hchild l rfl hcll.1, hcll.2⟩
      | true =>
        show childlessLeavesB (HTree.node l (place r rest x) none) = true
        unfold childlessLeavesB
        simp only [Option.isNone_none, Bool.true_or, Bool.true_and,
          Bool.and_eq_true]
        exact ⟨hcll.1, by simpa using hchild r rfl hcll.2⟩

/-- Placing a symbol into a free slot adds exactly that root-to-node path
to the tree's symbol paths and keeps every existing one. -/
theorem symPaths_place : ∀ (p : List Bool) (t : HTree) (x : Nat),
    slotFreeB t p = true →
    (symPaths (place t p x)).Perm ((p, x) :: symPaths t) := by
  intro p
  induction p with
  | nil =>
    intro t x hfree
    simp [slotFreeB] at hfree
  | cons b rest ih =>
    intro t x hfree
    cases t with
    | empty =>
      rw [symPaths_place_empty (b :: rest) x]
      exact List.Perm.refl _
    | node l r v =>
      have hsub : ∀ c : HTree, childOf (HTree.node l r v) b = c →
          (symPaths (place c rest x)).Perm ((rest, x) :: symPaths c) := by
        intro c hc
        cases hrest : rest with
        | nil =>
          have hfree2 : childOf (HTree.node l r v) b = HTree.empty := by
            rw [hrest] at hfree
            unfold slotFreeB at hfree
            simpa using hfree
          rw [hc] at hfree2
          subst hfree2
          rw [symPaths_place_empty [] x]
          exact List.Perm.refl _
        | cons c2 rest2 =>
          rw [← hrest]
          cases c with
          | empty =>
            rw [symPaths_place_empty rest x]
            exact List.Perm.refl _
          | node cl cr cv =>
            have hfree2 : (!(HTree.node cl cr cv).isLeafB &&
                slotFreeB (HTree.node cl cr cv) rest) = true := by
              rw [hrest] at hfree
              unfold slotFreeB at hfree
              rw [hc] at hfree
              rw [hrest]
              simpa using hfree
            rw [Bool.and_eq_true] at hfree2
            exact ih (HTree.node cl cr cv) x hfree2.2
      cases b with
      | false =>
        have h1 : ((symPaths (place l rest x)).map
              (fun q => ((false :: q.1 : List Bool), q.2)) ++
            (symPaths r).map (fun q => ((true :: q.1 : List Bool), q.2))).Perm
            (((false :: rest, x)) ::
              ((symPaths l).map (fun q => ((false :: q.1 : List Bool), q.2)) ++
              (symPaths r).map (fun q => ((true :: q.1 : List Bool), q.2)))) :=
          ((hsub l rfl).map _).append_right _
        cases v with
        | none => exact h1
        | some s => exact (h1.cons (([], s))).trans (List.Perm.swap _ _ _)
      | true =>
        have h1 : ((symPaths l).map
              (fun q => ((false :: q.1 : List Bool), q.2)) ++
            (symPaths (place r rest x)).map
              (fun q => ((true :: q.1 : List Bool), q.2))).Perm
            ((symPaths l).map (fun q => ((false :: q.1 : List Bool), q.2)) ++
              (((true :: rest, x)) ::
              (symPaths r).map (fun q => ((true :: q.1 : List Bool), q.2)))) :=
          ((hsub r rfl).map _).append_left _
        have h2 := h1.trans List.perm_middle
        cases v with
        | none => exact h2
        | some s => exact (h2.cons (([], s))).trans (List.Perm.swap _ _ _)

theorem pathExtends_cons {a b : Bool} {p q : List Bool} :
    pathExtends (a :: p) (b :: q) ↔ a = b ∧ pathExtends p q := by
  constructor
  · rintro ⟨r, hr⟩
    injection hr with h1 h2
    exact ⟨h1.symm, r, h2⟩
  · rintro ⟨hab, r, hr⟩
    exact ⟨r, by rw [hab, hr]; rfl⟩

/-- In a tree whose symbol-bearing nodes are all childless, the paths of
distinct symbol-bearing nodes never extend one another: they form a
prefix-free code. -/
theorem symPaths_prefixFree : ∀ t : HTree, childlessLeavesB t = true →
    ∀ (p : List Bool) (a : Nat) (q : List Bool) (c : Nat),
      (p, a) ∈ symPaths t → (q, c) ∈ symPaths t → p ≠ q →
      ¬ pathExtends p q := by
  intro t
  induction t with
  | empty =>
    intro _ p a q c hp _ _
    simp [symPaths] at hp
  | node l r v ihl ihr =>
    intro hcl p a q c hp hq hne
    have hparts : (v.isNone || (decide (l = HTree.empty) &&
        decide (r = HTree.empty))) = true ∧ childlessLeavesB l = true ∧
        childlessLeavesB r = true := by
      unfold childlessLeavesB at hcl
      simp only [Bool.and_eq_true] at hcl
      exact ⟨hcl.1.1, hcl.1.2, hcl.2⟩
    cases v with
    | some s =>
      have hempty : l = HTree.empty ∧ r = HTree.empty := by
        have h1 := hparts.1
        simp only [Option.isNone_some, Bool.false_or, Bool.and_eq_true,
          decide_eq_true_eq] at h1
        exact h1
      obtain ⟨he1, he2⟩ := hempty
      subst he1
      subst he2
      simp [symPaths] at hp hq
      exact absurd (hp.1.trans hq.1.symm) hne
    | none =>
      simp only [symPaths, List.nil_append, List.mem_append,
        List.mem_map] at hp hq
      rcases hp with ⟨⟨p', a'⟩, hpmem, hpeq⟩ | ⟨⟨p', a'⟩, hpmem, hpeq⟩ <;>
        rcases hq with ⟨⟨q', c'⟩, hqmem, hqeq⟩ | ⟨⟨q', c'⟩, hqmem, hqeq⟩ <;>
        simp only [Prod.mk.injEq] at hpeq hqeq <;>
        obtain ⟨hpeq1, hpeq2⟩ := hpeq <;>
        obtain ⟨hqeq1, hqeq2⟩ := hqeq <;>
        subst hpeq1 <;> subst hqeq1
      · intro hext
        rw [pathExtends_cons] at hext
        have hne2 : p' ≠ q' := by
          intro hback
          exact hne (by rw [hback])
        exact ihl hparts.2.1 p' a' q' c' hpmem hqmem hne2 hext.2
      · intro hext
        rw [pathExtends_cons] at hext
        simp at hext
      · intro hext
        rw [pathExtends_cons] at hext
        simp at hext
      · intro hext
        rw [pathExtends_cons] at hext
        have hne2 : p' ≠ q' := by
          intro hback
          exact hne (by rw [hback])
        exact ihr hparts.2.2 p' a' q' c' hpmem hqmem hne2 hext.2

/-- C8: the add_node invariants.  First, a successful insertion into a
tree whose symbol-bearing nodes are childless (and whose root carries no
symbol, as the root of a HuffmanTree always does) keeps every
symbol-bearing node childless and the root symbol-free, so under any
sequence of add_node calls with length ≥ 1 a leaf never acquires
children.  Second, in any such tree the root-to-leaf paths of the
symbol-bearing nodes form a prefix-free code.  Third, every successful
add_node call with length n places its symbol at depth exactly n, in the
free slot that is leftmost (lexicographically least, left subtree tried
before right) among all free slots of that depth at insertion time,
adding exactly that path to the tree. -/
theorem c8_huffman_add_node_invariants :
    (∀ (n x : Nat) (t t' : HTree), 1 ≤ n → rootSym t = none →
      childlessLeavesB t = true → addNode n t x = some t' →
      childlessLeavesB t' = true ∧ rootSym t' = none) ∧
    (∀ t : HTree, childlessLeavesB t = true →
      ∀ (p : List Bool) (a : Nat) (q : List Bool) (c : Nat),
        (p, a) ∈ symPaths t → (q, c) ∈ symPaths t → p ≠ q →
        ¬ pathExtends p q) ∧
    (∀ (n x : Nat) (t t' : HTree), 1 ≤ n → addNode n t x = some t' →
      ∃ p : List Bool, p.length = n ∧ slotFreeB t p = true ∧
        (symPaths t').Perm ((p, x) :: symPaths t) ∧
        ∀ q : List Bool, q.length = n → slotFreeB t q = true →
          lexLeB p q = true) := by
  refine ⟨?_, symPaths_prefixFree, ?_⟩
  · intro n x t t' hn hroot hcl hadd
    obtain ⟨m, rfl⟩ : ∃ m, n = m + 1 := ⟨n - 1, by omega⟩
    rw [addNode_eq] at hadd
    cases hip : insPath (m + 1) t with
    | none => rw [hip] at hadd; simp at hadd
    | some p =>
      rw [hip] at hadd
      simp only [Option.map_some'] at hadd
      injection hadd with h1
      subst h1
      have hspec := insPath_spec m t p hip
      constructor
      · exact childless_place p t x hspec.2 hroot hcl
      · obtain ⟨b, rest, hp⟩ : ∃ b rest, p = b :: rest := by
          cases p with
          | nil => have := hspec.1; simp at this
          | cons b rest => exact ⟨b, rest, rfl⟩
        subst hp
        cases t with
        | empty => cases b <;> rfl
        | node l r v => rw [rootSym_place]; exact hroot
  · intro n x t t' hn hadd
    obtain ⟨m, rfl⟩ : ∃ m, n = m + 1 := ⟨n - 1, by omega⟩
    rw [addNode_eq] at hadd
    cases hip : insPath (m + 1) t with
    | none => rw [hip] at hadd; simp at hadd
    | some p =>
      rw [hip] at hadd
      simp only [Option.map_some'] at hadd
      injection hadd with h1
      subst h1
      have hspec := insPath_spec m t p hip
      exact ⟨p, hspec.1, hspec.2, symPaths_place p t x hspec.2,
        fun q hq hfq => insPath_min m t p hip q hq hfq⟩

/-- The tree obtained by inserting symbol 5 at depth 2 into a fresh
root. -/
def c8tree : HTree :=
  match addNode 2 HTree.fresh 5 with
  | some t => t
  | none => HTree.empty

/-- C8 witness: the invariant theorem applied to one concrete insertion
into a fresh root. -/
theorem c8_huffman_add_node_invariants_witness :
    childlessLeavesB c8tree = true ∧ rootSym c8tree = none :=
  c8_huffman_add_node_invariants.1 2 5 HTree.fresh c8tree (by decide)
    rfl (by decide) rfl
